import Mathlib

/-! gitlabtojira: a shallow embedding of `main.go`.

The program is one `main` function: it pages through the issues of a GitLab
group, reverses the list, maps every issue to a Jira issue filed under a Jira
project, and writes one export document.

Embedding conventions.

* Go strings are Lean `String`s.  The only byte-level operations of the source
  (`strings.HasPrefix(l, "topic::")` and `l[len("topic::"):]`) concern a
  7-byte ASCII prefix, for which bytes and characters coincide.
* A `map[string]string` that is only ever indexed is a lookup function
  `String → Option String` (`some v` when the key is present).
* The map `projectIssues`, which is also ranged over, is an association list
  with pairwise distinct keys; the order in which `range` visits it is chosen
  by a caller-supplied comparison, since Go leaves it unspecified.
* Every interaction with the outside world (GitLab requests, `fmt.Println`,
  `ioutil.WriteFile`) is appended to a trace of events.  The answer of the
  outside world to a request may depend on the whole trace so far, which
  covers servers whose answers change over time.
* `panic` is an explicit result; the unbounded loop `for true` takes fuel.
* `pageNum` is a natural number: every earlier page held at least one issue,
  so the counter cannot wrap before the slice of issues exhausts memory.
* `main` is embedded from the point where `config.json` has been read and the
  GitLab client has been created.
-/

set_option autoImplicit false

namespace GitlabToJira

/-! ## Data model -/

/-- A Go `error` value, identified with its message. -/
abbrev Error := String

/-- Go `Config`; the two maps are only ever indexed. -/
structure Config where
  GitlabToken : String
  GitlabLabelToJiraProject : String → Option String
  GitlabRepoToJiraProject : String → Option String

/-- Go `JiraIssueComment`. -/
structure JiraIssueComment where
  Body : String
  deriving DecidableEq, Repr

/-- Go `JiraIssue`. -/
structure JiraIssue where
  IssueType : String
  Status : String
  Summary : String
  Description : String
  Labels : List String
  Comments : List JiraIssueComment
  deriving DecidableEq, Repr

/-- Go `JiraProject`. -/
structure JiraProject where
  Key : String
  Issues : List JiraIssue
  deriving DecidableEq, Repr

/-- Go `JiraExport`. -/
structure JiraExport where
  Projects : List JiraProject
  deriving DecidableEq, Repr

/-- The fields of `gitlab.Issue` that `main` reads. -/
structure Issue where
  IID : Int
  ProjectID : Int
  Title : String
  Description : String
  State : String
  Labels : List String
  WebURL : String
  deriving DecidableEq, Repr

/-- The field of `gitlab.Project` that `main` reads. -/
structure Project where
  PathWithNamespace : String
  deriving DecidableEq, Repr

/-- The fields of `gitlab.Note` that `main` reads. -/
structure Note where
  Body : String
  System : Bool
  deriving DecidableEq, Repr

/-- The field of `gitlab.Discussion` that `main` reads. -/
structure Discussion where
  Notes : List Note
  deriving DecidableEq, Repr

/-! ## The outside world -/

/-- One interaction of `main` with the outside world. -/
inductive Event where
  | ListGroupIssues (gid : String) (page perPage : Nat)
  | Println (line : String)
  | GetProject (pid : Int)
  | ListIssueDiscussions (pid issue : Int)
  | WriteFile (filename : String) (data : JiraExport)
  deriving DecidableEq, Repr

/-- The outside world: each answer is a function of the events so far and of
the request. -/
structure Env where
  ListGroupIssues : List Event → String → Nat → Nat → Except Error (List Issue)
  GetProject : List Event → Int → Except Error Project
  ListIssueDiscussions : List Event → Int → Int → Except Error (List Discussion)
  WriteFile : List Event → String → JiraExport → Except Error Unit

/-- The argument of a Go `panic`. -/
inductive PanicValue where
  | err (e : Error)
  | str (s : String)
  | indexOutOfRange
  deriving DecidableEq, Repr

/-! ## Fetching all issues (lines 57-83) -/

/-- Lines 74-76: `for _, i := range issuesOnPage { issues = append(issues, i) }`. -/
def appendLoop : List Issue → List Issue → List Issue
  | [], issues => issues
  | i :: rest, issues => appendLoop rest (issues ++ [i])

/-- Lines 60-78: the loop `for true`, with fuel for the number of iterations.
`none` means the fuel ran out before the loop ended. -/
def fetchLoop (env : Env) :
    Nat → Nat → List Issue → List Event → Option (Except PanicValue (List Issue) × List Event)
  | 0, _, _, _ => none
  | fuel + 1, pageNum, issues, tr =>
    let tr1 := tr ++ [Event.ListGroupIssues "k-t-corp" pageNum 10]
    match env.ListGroupIssues tr "k-t-corp" pageNum 10 with
    | .error e => some (.error (.err e), tr1)
    | .ok issuesOnPage =>
      if issuesOnPage.length = 0 then some (.ok issues, tr1)
      else fetchLoop env fuel (pageNum + 1) (appendLoop issuesOnPage issues) tr1

/-- Line 82: `issues[i], issues[j] = issues[j], issues[i]`; `none` is the
run-time panic of an index out of range. -/
def swap (issues : List Issue) (i j : Nat) : Option (List Issue) :=
  match issues[i]?, issues[j]? with
  | some a, some b => some ((issues.set i b).set j a)
  | _, _ => none

/-- Lines 81-83: `for i, j := 0, len(issues)-1; i < j; i, j = i+1, j-1`.  The
first argument bounds the number of iterations. -/
def reverseLoop : Nat → Nat → Int → List Issue → Option (List Issue)
  | 0, _, _, issues => some issues
  | fuel + 1, i, j, issues =>
    if (i : Int) < j then
      match swap issues i j.toNat with
      | none => none
      | some issues1 => reverseLoop fuel (i + 1) (j - 1) issues1
    else some issues

/-- Lines 80-83 with the loop bounded by the length of the slice. -/
def reverseIssues (issues : List Issue) : Option (List Issue) :=
  reverseLoop issues.length 0 ((issues.length : Int) - 1) issues

/-- Lines 57-83: the issues handed to the mapping loop. -/
def getAllIssues (env : Env) (fuel : Nat) :
    Option (Except PanicValue (List Issue) × List Event) :=
  match fetchLoop env fuel 1 [] [] with
  | none => none
  | some (.error p, tr) => some (.error p, tr)
  | some (.ok issues, tr) =>
    match reverseIssues issues with
    | none => some (.error .indexOutOfRange, tr)
    | some issues1 => some (.ok issues1, tr)

/-! ## Mapping one issue (lines 87-178) -/

/-- Lines 91-96: the scan of the labels for a mapped one, with `break`. -/
def labelProjectLoop (m : String → Option String) : List String → String → String
  | [], jiraProject => jiraProject
  | l :: rest, jiraProject =>
    match m l with
    | some jp => jp
    | none => labelProjectLoop m rest jiraProject

/-- Lines 89-110: the Jira project of an issue. -/
def determineProject (config : Config) (env : Env) (issue : Issue) (tr : List Event) :
    Except PanicValue String × List Event :=
  let jiraProject := labelProjectLoop config.GitlabLabelToJiraProject issue.Labels ""
  if jiraProject = "" then
    let tr1 := tr ++ [Event.GetProject issue.ProjectID]
    match env.GetProject tr issue.ProjectID with
    | .error e => (.error (.err e), tr1)
    | .ok gitlabProject =>
      let jiraProject1 :=
        match config.GitlabRepoToJiraProject gitlabProject.PathWithNamespace with
        | some jp => jp
        | none => jiraProject
      if jiraProject1 = "" then
        (.error (.str ">> This issue does not belong to any Jira project"), tr1)
      else (.ok jiraProject1, tr1)
  else (.ok jiraProject, tr)

/-- Lines 118-123: the scan for the label `bug`, with `break`. -/
def bugLoop : List String → String → String
  | [], jiraIssueType => jiraIssueType
  | l :: rest, jiraIssueType => if l = "bug" then "Bug" else bugLoop rest jiraIssueType

/-- Lines 112-124: the Jira issue type. -/
def determineIssueType (jiraProject : String) (issue : Issue) : String :=
  if jiraProject = "ENG" then "Epic" else bugLoop issue.Labels "Story"

/-- Lines 130-135: the scan for the label `status:wont-fix`, with `break`. -/
def wontFixLoop : List String → Bool → Bool
  | [], isWontFix => isWontFix
  | l :: rest, isWontFix => if l = "status:wont-fix" then true else wontFixLoop rest isWontFix

/-- Lines 126-138: the Jira issue status. -/
def determineIssueStatus (issue : Issue) : String :=
  let isWontFix := wontFixLoop issue.Labels false
  if issue.State = "closed" ∧ isWontFix = false then "Done" else "To Do"

/-- Go `strings.HasPrefix`. -/
def HasPrefix (s pre : String) : Bool :=
  pre.data.isPrefixOf s.data

/-- Go `s[n:]`, for a cut at a character boundary. -/
def sliceFrom (s : String) (n : Nat) : String :=
  ⟨s.data.drop n⟩

/-- Lines 143-149: the scan building the extra Jira labels. -/
def extraLabelsLoop : List String → List String → List String
  | [], jiraIssueLabels => jiraIssueLabels
  | l :: rest, jiraIssueLabels =>
    if l = "cost" ∨ l = "monetize" then extraLabelsLoop rest (jiraIssueLabels ++ [l])
    else if HasPrefix l "topic::" then
      extraLabelsLoop rest (jiraIssueLabels ++ [sliceFrom l "topic::".length])
    else extraLabelsLoop rest jiraIssueLabels

/-- Lines 140-149: the extra Jira labels. -/
def determineLabels (issue : Issue) : List String :=
  extraLabelsLoop issue.Labels []

/-- Lines 158-164: the notes of one discussion. -/
def notesLoop : List Note → List JiraIssueComment → List JiraIssueComment
  | [], jiraIssueComments => jiraIssueComments
  | n :: rest, jiraIssueComments =>
    if n.System = false then notesLoop rest (jiraIssueComments ++ [⟨n.Body⟩])
    else notesLoop rest jiraIssueComments

/-- Lines 157-165: all discussions. -/
def discussionsLoop : List Discussion → List JiraIssueComment → List JiraIssueComment
  | [], jiraIssueComments => jiraIssueComments
  | d :: rest, jiraIssueComments => discussionsLoop rest (notesLoop d.Notes jiraIssueComments)

/-- Lines 156-168: the comments of the Jira issue, from the discussions. -/
def constructComments (discussions : List Discussion) (issue : Issue) : List JiraIssueComment :=
  discussionsLoop discussions [] ++ [⟨"Imported from " ++ issue.WebURL⟩]

/-- Lines 87-178: one iteration of the issue loop up to the constructed Jira
issue, with the Jira project it is filed under. -/
def mapIssue (config : Config) (env : Env) (issue : Issue) (tr : List Event) :
    Except PanicValue (String × JiraIssue) × List Event :=
  let tr0 := tr ++ [Event.Println ("Examining '" ++ issue.Title ++ "'")]
  match determineProject config env issue tr0 with
  | (.error p, tr1) => (.error p, tr1)
  | (.ok jiraProject, tr1) =>
    let jiraIssueType := determineIssueType jiraProject issue
    let jiraIssueStatus := determineIssueStatus issue
    let jiraIssueLabels := determineLabels issue
    let tr2 := tr1 ++ [Event.ListIssueDiscussions issue.ProjectID issue.IID]
    match env.ListIssueDiscussions tr1 issue.ProjectID issue.IID with
    | .error e => (.error (.err e), tr2)
    | .ok discussions =>
      let jiraIssueComments := constructComments discussions issue
      (.ok (jiraProject,
        { IssueType := jiraIssueType
          Status := jiraIssueStatus
          Summary := issue.Title
          Description := issue.Description
          Labels := jiraIssueLabels
          Comments := jiraIssueComments }), tr2)

/-! ## The buckets and the export (lines 85-86, 179-205) -/

/-- Go `map[string][]JiraIssue`, as an association list. -/
abbrev IssueMap := List (String × List JiraIssue)

/-- The two-valued index expression `v, ok := m[k]`. -/
def mapLookup : IssueMap → String → Option (List JiraIssue)
  | [], _ => none
  | (k1, v) :: rest, k => if k1 = k then some v else mapLookup rest k

/-- The index expression `m[k]`: the zero value when the key is absent. -/
def mapIndex (m : IssueMap) (k : String) : List JiraIssue :=
  (mapLookup m k).getD []

/-- The assignment `m[k] = v`. -/
def mapStore : IssueMap → String → List JiraIssue → IssueMap
  | [], k, v => [(k, v)]
  | (k1, v1) :: rest, k, v =>
    if k1 = k then (k, v) :: rest else (k1, v1) :: mapStore rest k v

/-- Lines 179-182: filing a Jira issue under its project. -/
def fileIssue (projectIssues : IssueMap) (jiraProject : String) (jiraIssue : JiraIssue) :
    IssueMap :=
  let projectIssues1 :=
    if (mapLookup projectIssues jiraProject).isNone then mapStore projectIssues jiraProject []
    else projectIssues
  mapStore projectIssues1 jiraProject (mapIndex projectIssues1 jiraProject ++ [jiraIssue])

/-- Lines 86-183: the loop over the issues. -/
def issuesLoop (config : Config) (env : Env) :
    List Issue → IssueMap → List Event → Except PanicValue IssueMap × List Event
  | [], projectIssues, tr => (.ok projectIssues, tr)
  | issue :: rest, projectIssues, tr =>
    match mapIssue config env issue tr with
    | (.error p, tr1) => (.error p, tr1)
    | (.ok (jiraProject, jiraIssue), tr1) =>
      issuesLoop config env rest (fileIssue projectIssues jiraProject jiraIssue) tr1

/-- The order in which `range` visits a map: the entries sorted by an
arbitrary comparison of the keys. -/
def rangeOrder (rangeLe : String → String → Bool) (m : IssueMap) : IssueMap :=
  List.insertionSort (fun a b => rangeLe a.1 b.1 = true) m

/-- Lines 187-192: the loop building the project list. -/
def projectsLoop : IssueMap → List JiraProject → List JiraProject
  | [], projects => projects
  | (p, ii) :: rest, projects => projectsLoop rest (projects ++ [{ Key := p, Issues := ii }])

/-- The result of a run: the events in order, and the panic value when the run
was aborted. -/
structure RunResult where
  trace : List Event
  panic : Option PanicValue
  deriving DecidableEq, Repr

/-- Lines 57-205 of `main`.  `none` means that the fetch loop did not end
within `fuel` iterations. -/
def main (config : Config) (env : Env) (rangeLe : String → String → Bool) (fuel : Nat) :
    Option RunResult :=
  match getAllIssues env fuel with
  | none => none
  | some (.error p, tr) => some ⟨tr, some p⟩
  | some (.ok issues, tr) =>
    match issuesLoop config env issues [] tr with
    | (.error p, tr1) => some ⟨tr1, some p⟩
    | (.ok projectIssues, tr1) =>
      let projects := projectsLoop (rangeOrder rangeLe projectIssues) []
      let exportDoc : JiraExport := { Projects := projects }
      let tr2 := tr1 ++ [Event.WriteFile "export.json" exportDoc]
      match env.WriteFile tr1 "export.json" exportDoc with
      | .error e => some ⟨tr2, some (.err e)⟩
      | .ok _ => some ⟨tr2, none⟩

/-- The documents handed to `ioutil.WriteFile` for `export.json` during a run. -/
def exportsWritten (tr : List Event) : List JiraExport :=
  tr.filterMap fun ev =>
    match ev with
    | .WriteFile "export.json" data => some data
    | _ => none

/-! ## Specification-side definitions -/

/-- The first label of an issue that is a key of the label-to-project map. -/
def firstMappedLabel (config : Config) (issue : Issue) : Option String :=
  issue.Labels.find? fun l => (config.GitlabLabelToJiraProject l).isSome

/-- Label projection in the words of the specification, for one label: keep
`cost` and `monetize` verbatim, keep the remainder of a label that starts
with `topic::`, drop every other label. -/
def projectLabel (l : String) : Option String :=
  if l = "cost" ∨ l = "monetize" then some l
  else if "topic::".data <+: l.data then some (l.drop 7)
  else none

/-- Label projection in the words of the specification: the labels scanned in
order, each one kept, stripped or dropped. -/
def projectLabels (labels : List String) : List String :=
  labels.filterMap projectLabel

/-- The bodies of the user notes of a list of discussions, thread by thread
and, within a thread, in note order. -/
def userNoteBodies (discussions : List Discussion) : List JiraIssueComment :=
  ((discussions.map fun d => d.Notes).flatten.filter fun n => n.System = false).map
    fun n => { Body := n.Body }

/-- The trace after the requests for the pages `1`, ..., `n`. -/
def pageTrace (n : Nat) : List Event :=
  (List.range n).map fun i => Event.ListGroupIssues "k-t-corp" (i + 1) 10

/-- The answer of the server to the request for page `n + 1`, made after the
requests for the pages `1`, ..., `n`. -/
def pageAnswer (env : Env) (n : Nat) : Except Error (List Issue) :=
  env.ListGroupIssues (pageTrace n) "k-t-corp" (n + 1) 10

/-- From page `n + 1` on, the server answers the given non-empty pages one
after the other without error, and then an empty page. -/
def PagesServed (env : Env) : Nat → List (List Issue) → Prop
  | n, [] => pageAnswer env n = .ok []
  | n, page :: rest => pageAnswer env n = .ok page ∧ page ≠ [] ∧ PagesServed env (n + 1) rest

/-- The pair `m` of a project key and a Jira issue is what the mapping of
`issue` yields at some point of a run. -/
def MappedFrom (config : Config) (env : Env) (issue : Issue) (m : String × JiraIssue) : Prop :=
  ∃ tr tr2, mapIssue config env issue tr = (.ok m, tr2)

/-- The Jira issues filed under `key`, in the order of the list of mapped
issues. -/
def bucketOf (mapped : List (String × JiraIssue)) (key : String) : List JiraIssue :=
  (mapped.filter fun m => m.1 = key).map fun m => m.2

/-- Whether the outside world answers the request `ev`, made after the events
`tr`, without error; output events always count as answered. -/
def answerOk (env : Env) (tr : List Event) : Event → Bool
  | .ListGroupIssues gid page perPage =>
    match env.ListGroupIssues tr gid page perPage with
    | .ok _ => true
    | .error _ => false
  | .GetProject pid =>
    match env.GetProject tr pid with
    | .ok _ => true
    | .error _ => false
  | .ListIssueDiscussions pid issue =>
    match env.ListIssueDiscussions tr pid issue with
    | .ok _ => true
    | .error _ => false
  | .Println _ => true
  | .WriteFile _ _ => true

/-- Whether every remote call among the events `tr`, made after the events
`done`, was answered without error. -/
def remoteCallsSucceedFrom (env : Env) : List Event → List Event → Bool
  | _, [] => true
  | done, ev :: rest => answerOk env done ev && remoteCallsSucceedFrom env (done ++ [ev]) rest

/-- Whether every remote call of a run with trace `tr` was answered without
error. -/
def remoteCallsSucceed (env : Env) (tr : List Event) : Bool :=
  remoteCallsSucceedFrom env [] tr

/-- The last event of the trace is a remote call that was answered with an
error. -/
def LastCallFailed (env : Env) (tr : List Event) : Prop :=
  ∃ tr1 ev, tr = tr1 ++ [ev] ∧ answerOk env tr1 ev = false

/-- The panic value of an issue that belongs to no Jira project (line 109). -/
def unassignable : PanicValue :=
  .str ">> This issue does not belong to any Jira project"

/-- The buckets hold the mapped issues: the keys are pairwise distinct, and a
key is present exactly when an issue was filed under it, with the issues filed
under it in order. -/
def Buckets (m : IssueMap) (mapped : List (String × JiraIssue)) : Prop :=
  (m.map Prod.fst).Nodup ∧
  ∀ k, mapLookup m k = if bucketOf mapped k = [] then none else some (bucketOf mapped k)

/-! ## The serialized export (lines 17-37, 198) -/

/-- A JSON value as `encoding/json` writes it; the fields of an object are in
the order in which they are written. -/
inductive Json where
  | null
  | str (s : String)
  | arr (items : List Json)
  | obj (fields : List (String × Json))

/-- The names of the fields of a JSON object, in the order of the document. -/
def Json.fieldNames : Json → List String
  | .obj fields => fields.map Prod.fst
  | _ => []

/-- Go `json.Marshal` on a `JiraIssueComment` (lines 17-19). -/
def marshalComment (c : JiraIssueComment) : Json :=
  .obj [("body", .str c.Body)]

/-- Go `json.Marshal` on a `JiraIssue` (lines 21-28): the fields in the order
of the struct declaration under the names of their tags, a field tagged
`omitempty` left out when its slice has length 0. -/
def marshalIssue (i : JiraIssue) : Json :=
  .obj ([("issueType", .str i.IssueType), ("status", .str i.Status),
         ("summary", .str i.Summary), ("description", .str i.Description)]
    ++ (if i.Labels.length = 0 then [] else [("labels", .arr (i.Labels.map Json.str))])
    ++ (if i.Comments.length = 0 then []
        else [("comments", .arr (i.Comments.map marshalComment))]))

/-! ## Further specification-side definitions -/

/-- The result of the scan of the labels of lines 90-96: the value of the
variable `jiraProject` after the loop, empty when the scan yields nothing. -/
def labelScan (config : Config) (issue : Issue) : String :=
  labelProjectLoop config.GitlabLabelToJiraProject issue.Labels ""

/-- The error, if any, with which the outside world answers the remote call
`ev` made after the events `tr`. -/
def answerError (env : Env) (tr : List Event) : Event → Option Error
  | .ListGroupIssues gid page perPage =>
    match env.ListGroupIssues tr gid page perPage with
    | .ok _ => none
    | .error e => some e
  | .GetProject pid =>
    match env.GetProject tr pid with
    | .ok _ => none
    | .error e => some e
  | .ListIssueDiscussions pid issue =>
    match env.ListIssueDiscussions tr pid issue with
    | .ok _ => none
    | .error e => some e
  | .Println _ => none
  | .WriteFile _ _ => none

/-- The run with trace `tr` was aborted by a failed remote call: the last
event is a remote call answered with an error, which is the panic value, and
every remote call before it succeeded. -/
def AbortedByCall (env : Env) (tr : List Event) (p : PanicValue) : Prop :=
  ∃ tr1 ev e, tr = tr1 ++ [ev] ∧ remoteCallsSucceed env tr1 = true ∧
    answerError env tr1 ev = some e ∧ p = .err e

/-- The project identifiers of the repository lookups of a trace, in order. -/
def getProjectCalls (tr : List Event) : List Int :=
  tr.filterMap fun ev =>
    match ev with
    | .GetProject pid => some pid
    | _ => none

/-- The project and issue identifiers of the discussion requests of a trace,
in order. -/
def discussionCalls (tr : List Event) : List (Int × Int) :=
  tr.filterMap fun ev =>
    match ev with
    | .ListIssueDiscussions pid issue => some (pid, issue)
    | _ => none

/-- The group, page number and page size of the page requests of a trace, in
order. -/
def pageRequests (tr : List Event) : List (String × Nat × Nat) :=
  tr.filterMap fun ev =>
    match ev with
    | .ListGroupIssues gid page perPage => some (gid, page, perPage)
    | _ => none

/-- The number of Jira issues held by all the buckets together. -/
def totalIssues (m : IssueMap) : Nat :=
  (m.map fun kv => kv.2.length).sum

/-- The two worlds give the same answers to everything but repository
lookups. -/
def AgreeExceptGetProject (env1 env2 : Env) : Prop :=
  env2.ListGroupIssues = env1.ListGroupIssues ∧
  env2.ListIssueDiscussions = env1.ListIssueDiscussions ∧
  env2.WriteFile = env1.WriteFile

/-- From page `n + 1` on, the server answers the given non-empty pages one
after the other without error; nothing is said of the page after them. -/
def PagesFetched (env : Env) : Nat → List (List Issue) → Prop
  | _, [] => True
  | n, page :: rest => pageAnswer env n = .ok page ∧ page ≠ [] ∧ PagesFetched env (n + 1) rest

/-! ## Example data -/

/-- A configuration with one mapped label, one label mapped to the empty
string, and one mapped repository. -/
def exampleConfig : Config where
  GitlabToken := "token"
  GitlabLabelToJiraProject := fun l =>
    if l = "eng-project" then some "ENG"
    else if l = "web-project" then some "WEB"
    else if l = "legacy" then some ""
    else none
  GitlabRepoToJiraProject := fun path =>
    if path = "k-t-corp/web" then some "WEB" else none

/-- An issue of project 7 with the given number, labels and state. -/
def exampleIssue (iid : Int) (labels : List String) (state : String) : Issue where
  IID := iid
  ProjectID := 7
  Title := "Title"
  Description := "Text"
  State := state
  Labels := labels
  WebURL := "https://gitlab.example/k-t-corp/web/-/issues/1"

/-- A server with no issue, on which project 7 is `k-t-corp/web` and every
issue has one discussion of a user note and a system note, followed by a
discussion of one user note. -/
def exampleEnv : Env where
  ListGroupIssues := fun _ _ _ _ => .ok []
  GetProject := fun _ pid => if pid = 7 then .ok ⟨"k-t-corp/web"⟩ else .ok ⟨"k-t-corp/other"⟩
  ListIssueDiscussions := fun _ _ _ =>
    .ok [⟨[⟨"first", false⟩, ⟨"closed", true⟩]⟩, ⟨[⟨"second", false⟩]⟩]
  WriteFile := fun _ _ _ => .ok ()

/-- A server holding the given pages of issues, with the projects and
discussions of `exampleEnv`. -/
def pagedEnv (pages : List (List Issue)) : Env where
  ListGroupIssues := fun _ _ page _ => .ok (pages.getD (page - 1) [])
  GetProject := exampleEnv.GetProject
  ListIssueDiscussions := fun _ _ _ => .ok []
  WriteFile := fun _ _ _ => .ok ()

/-- The oldest of three example issues, labelled for the project `WEB`. -/
def issueA : Issue :=
  { exampleIssue 1 ["web-project"] "closed" with Title := "A" }

/-- The second example issue, filed under `WEB` through its repository. -/
def issueB : Issue :=
  { exampleIssue 2 ["bug"] "opened" with Title := "B" }

/-- The newest example issue, labelled for the project `WEB`. -/
def issueC : Issue :=
  { exampleIssue 3 ["web-project", "cost"] "opened" with Title := "C" }

/-- An issue of the unmapped project 8 with no mapped label. -/
def issueX : Issue :=
  { exampleIssue 4 ["bug"] "opened" with ProjectID := 8, Title := "X" }

/-- The Jira issue of an example issue: all example issues have the same
description, web URL and (on `pagedEnv`) no discussion. -/
def exampleJira (issueType status summary : String) (labels : List String) : JiraIssue where
  IssueType := issueType
  Status := status
  Summary := summary
  Description := "Text"
  Labels := labels
  Comments := [⟨"Imported from https://gitlab.example/k-t-corp/web/-/issues/1"⟩]

/-- The run on the pages `[issueC, issueB]`, `[issueA]`. -/
def exampleRun : RunResult where
  trace :=
    [Event.ListGroupIssues "k-t-corp" 1 10,
     Event.ListGroupIssues "k-t-corp" 2 10,
     Event.ListGroupIssues "k-t-corp" 3 10,
     Event.Println "Examining \x27A\x27",
     Event.ListIssueDiscussions 7 1,
     Event.Println "Examining \x27B\x27",
     Event.GetProject 7,
     Event.ListIssueDiscussions 7 2,
     Event.Println "Examining \x27C\x27",
     Event.ListIssueDiscussions 7 3,
     Event.WriteFile "export.json"
       { Projects := [{ Key := "WEB",
                        Issues := [exampleJira "Story" "Done" "A" [],
                                   exampleJira "Bug" "To Do" "B" [],
                                   exampleJira "Story" "To Do" "C" ["cost"]] }] }]
  panic := none

/-- An example issue labelled for the project `ENG`. -/
def issueE : Issue :=
  { exampleIssue 5 ["bug", "eng-project"] "closed" with Title := "E" }

/-- The server `pagedEnv` on which the discussion request for the issue with
number 2 fails. -/
def failingEnv (pages : List (List Issue)) : Env where
  ListGroupIssues := (pagedEnv pages).ListGroupIssues
  GetProject := (pagedEnv pages).GetProject
  ListIssueDiscussions := fun _ _ iid => if iid = 2 then .error "503" else .ok []
  WriteFile := fun _ _ _ => .ok ()

/-- The export of the run on the pages `[issueB, issueE]`, `[issueA]`. -/
def exampleExportTwo : JiraExport where
  Projects :=
    [{ Key := "WEB",
       Issues := [exampleJira "Story" "Done" "A" [], exampleJira "Bug" "To Do" "B" []] },
     { Key := "ENG", Issues := [exampleJira "Epic" "Done" "E" []] }]

/-- The run on the pages `[issueB, issueE]`, `[issueA]`, the map ranged over
in the order `WEB`, `ENG`. -/
def exampleRunTwo : RunResult where
  trace :=
    [Event.ListGroupIssues "k-t-corp" 1 10,
     Event.ListGroupIssues "k-t-corp" 2 10,
     Event.ListGroupIssues "k-t-corp" 3 10,
     Event.Println "Examining \x27A\x27",
     Event.ListIssueDiscussions 7 1,
     Event.Println "Examining \x27E\x27",
     Event.ListIssueDiscussions 7 5,
     Event.Println "Examining \x27B\x27",
     Event.GetProject 7,
     Event.ListIssueDiscussions 7 2,
     Event.WriteFile "export.json" exampleExportTwo]
  panic := none

/-- The run on the pages `[issueC, issueB]`, `[issueA]` of `failingEnv`. -/
def failedRun : RunResult where
  trace :=
    [Event.ListGroupIssues "k-t-corp" 1 10,
     Event.ListGroupIssues "k-t-corp" 2 10,
     Event.ListGroupIssues "k-t-corp" 3 10,
     Event.Println "Examining \x27A\x27",
     Event.ListIssueDiscussions 7 1,
     Event.Println "Examining \x27B\x27",
     Event.GetProject 7,
     Event.ListIssueDiscussions 7 2]
  panic := some (.err "503")

/-- The server `exampleEnv` on which every repository lookup fails. -/
def brokenLookupEnv : Env where
  ListGroupIssues := exampleEnv.ListGroupIssues
  GetProject := fun _ _ => .error "404"
  ListIssueDiscussions := exampleEnv.ListIssueDiscussions
  WriteFile := exampleEnv.WriteFile

/-- A server that answers the first page request with `[issueC]` and every
later page request with the error `500`. -/
def failingPageEnv : Env where
  ListGroupIssues := fun _ _ page _ => if page = 1 then .ok [issueC] else .error "500"
  GetProject := exampleEnv.GetProject
  ListIssueDiscussions := fun _ _ _ => .ok []
  WriteFile := fun _ _ _ => .ok ()

/-! ## Lemmas on the mapping of one issue -/

theorem labelProjectLoop_none (m : String → Option String) (labels : List String)
    (init : String) (h : ∀ l ∈ labels, m l = none) :
    labelProjectLoop m labels init = init := by
  induction labels with
  | nil => rfl
  | cons l rest ih =>
    have hl : m l = none := h l (List.mem_cons_self l rest)
    simp only [labelProjectLoop, hl]
    exact ih fun x hx => h x (List.mem_cons_of_mem l hx)

theorem labelProjectLoop_find (m : String → Option String) (labels : List String)
    (init l v : String) (hfind : labels.find? (fun x => (m x).isSome) = some l)
    (hv : m l = some v) : labelProjectLoop m labels init = v := by
  induction labels with
  | nil => simp at hfind
  | cons x rest ih =>
    cases hx : m x with
    | none =>
      simp only [labelProjectLoop, hx]
      apply ih
      simpa [List.find?, hx] using hfind
    | some w =>
      have hxl : x = l := by simpa [List.find?, hx] using hfind
      subst hxl
      rw [hv] at hx
      cases hx
      simp only [labelProjectLoop, hv]

theorem bugLoop_eq (labels : List String) (init : String) :
    bugLoop labels init = if "bug" ∈ labels then "Bug" else init := by
  induction labels with
  | nil => simp [bugLoop]
  | cons l rest ih =>
    by_cases h : l = "bug"
    · simp [bugLoop, h]
    · have h1 : ¬ "bug" = l := fun e => h e.symm
      simp [bugLoop, h, h1, ih]

theorem wontFixLoop_eq (labels : List String) (init : Bool) :
    wontFixLoop labels init = if "status:wont-fix" ∈ labels then true else init := by
  induction labels with
  | nil => simp [wontFixLoop]
  | cons l rest ih =>
    by_cases h : l = "status:wont-fix"
    · simp [wontFixLoop, h]
    · have h1 : ¬ "status:wont-fix" = l := fun e => h e.symm
      simp [wontFixLoop, h, h1, ih]

theorem sliceFrom_eq_drop (s : String) (n : Nat) : sliceFrom s n = s.drop n := by
  rw [String.drop_eq]
  rfl

theorem extraLabelsLoop_eq (labels acc : List String) :
    extraLabelsLoop labels acc = acc ++ projectLabels labels := by
  induction labels generalizing acc with
  | nil => simp [extraLabelsLoop, projectLabels]
  | cons l rest ih =>
    have h7 : "topic::".length = 7 := by decide
    by_cases h1 : l = "cost" ∨ l = "monetize"
    · simp [extraLabelsLoop, projectLabels, projectLabel, h1, ih, List.filterMap_cons]
    · by_cases h2 : "topic::".data <+: l.data
      · have h3 : HasPrefix l "topic::" = true := by
          simpa [HasPrefix] using h2
        simp [extraLabelsLoop, projectLabels, projectLabel, h1, h2, h3, ih,
          List.filterMap_cons, sliceFrom_eq_drop, h7]
      · have h3 : ¬ HasPrefix l "topic::" = true := by
          simpa [HasPrefix] using h2
        simp [extraLabelsLoop, projectLabels, projectLabel, h1, h2, h3, ih,
          List.filterMap_cons]

theorem notesLoop_eq (notes : List Note) (acc : List JiraIssueComment) :
    notesLoop notes acc =
      acc ++ (notes.filter fun n => n.System = false).map fun n => { Body := n.Body } := by
  induction notes generalizing acc with
  | nil => simp [notesLoop]
  | cons n rest ih =>
    by_cases h : n.System = false
    · simp [notesLoop, h, ih, List.filter_cons]
    · simp [notesLoop, h, ih, List.filter_cons]

theorem discussionsLoop_eq (discussions : List Discussion) (acc : List JiraIssueComment) :
    discussionsLoop discussions acc = acc ++ userNoteBodies discussions := by
  induction discussions generalizing acc with
  | nil => simp [discussionsLoop, userNoteBodies]
  | cons d rest ih =>
    simp [discussionsLoop, ih, notesLoop_eq, userNoteBodies, List.filter_append]

/-- What a successful mapping of one issue consists of. -/
theorem mapIssue_ok {config : Config} {env : Env} {issue : Issue} {tr tr2 : List Event}
    {jp : String} {ji : JiraIssue}
    (h : mapIssue config env issue tr = (.ok (jp, ji), tr2)) :
    ∃ tr1 discussions,
      determineProject config env issue
          (tr ++ [Event.Println ("Examining '" ++ issue.Title ++ "'")]) = (.ok jp, tr1) ∧
      env.ListIssueDiscussions tr1 issue.ProjectID issue.IID = .ok discussions ∧
      tr2 = tr1 ++ [Event.ListIssueDiscussions issue.ProjectID issue.IID] ∧
      ji = { IssueType := determineIssueType jp issue
             Status := determineIssueStatus issue
             Summary := issue.Title
             Description := issue.Description
             Labels := determineLabels issue
             Comments := constructComments discussions issue } := by
  simp only [mapIssue] at h
  split at h
  · simp at h
  · rename_i jp1 tr1 hd
    split at h
    · simp at h
    · rename_i discussions hl
      simp only [Prod.mk.injEq, Except.ok.injEq] at h
      obtain ⟨⟨h1, h2⟩, h3⟩ := h
      subst h1
      exact ⟨tr1, discussions, hd, hl, h3.symm, h2.symm⟩

theorem determineProject_of_label (config : Config) (env : Env) (issue : Issue)
    (tr : List Event) (l v : String)
    (hfirst : firstMappedLabel config issue = some l)
    (hv : config.GitlabLabelToJiraProject l = some v) (hne : v ≠ "") :
    determineProject config env issue tr = (.ok v, tr) := by
  have hloop : labelProjectLoop config.GitlabLabelToJiraProject issue.Labels "" = v :=
    labelProjectLoop_find _ _ _ l v hfirst hv
  simp only [determineProject, hloop, if_neg hne]

theorem determineIssueStatus_eq (issue : Issue) :
    determineIssueStatus issue =
      if issue.State = "closed" ∧ "status:wont-fix" ∉ issue.Labels then "Done" else "To Do" := by
  simp only [determineIssueStatus, wontFixLoop_eq]
  by_cases h : "status:wont-fix" ∈ issue.Labels <;> simp [h]

theorem constructComments_eq (discussions : List Discussion) (issue : Issue) :
    constructComments discussions issue =
      userNoteBodies discussions ++ [{ Body := "Imported from " ++ issue.WebURL }] := by
  simp [constructComments, discussionsLoop_eq]

/-! ## Lemmas on the fetch loop and the reversal -/

theorem appendLoop_eq (page issues : List Issue) : appendLoop page issues = issues ++ page := by
  induction page generalizing issues with
  | nil => simp [appendLoop]
  | cons i rest ih => simp [appendLoop, ih]

theorem swap_ends (a m b : List Issue) (x y : Issue) :
    swap (a ++ x :: (m ++ y :: b)) a.length (a.length + m.length + 1) =
      some (a ++ y :: (m ++ x :: b)) := by
  have h1 : (a ++ x :: (m ++ y :: b))[a.length]? = some x := by
    rw [List.getElem?_append_right (Nat.le_refl _), Nat.sub_self, List.getElem?_cons_zero]
  have h2 : (a ++ x :: (m ++ y :: b))[a.length + m.length + 1]? = some y := by
    rw [List.getElem?_append_right (by omega)]
    have : a.length + m.length + 1 - a.length = m.length + 1 := by omega
    rw [this, List.getElem?_cons_succ, List.getElem?_append_right (Nat.le_refl _), Nat.sub_self,
      List.getElem?_cons_zero]
  simp only [swap, h1, h2]
  congr 1
  have e1 : (a ++ x :: (m ++ y :: b)).set a.length y = a ++ y :: (m ++ y :: b) := by
    simp
  rw [e1]
  rw [List.set_append_right _ _ (by omega)]
  have : a.length + m.length + 1 - a.length = m.length + 1 := by omega
  rw [this]
  simp

theorem list_ends_cases (m : List Issue) :
    m = [] ∨ (∃ x, m = [x]) ∨ ∃ x mid y, m = x :: (mid ++ [y]) := by
  cases m with
  | nil => exact Or.inl rfl
  | cons x t =>
    rcases List.eq_nil_or_concat t with h | ⟨mid, y, h⟩
    · exact Or.inr (Or.inl ⟨x, by rw [h]⟩)
    · exact Or.inr (Or.inr ⟨x, mid, y, by rw [h]; simp⟩)

theorem reverseLoop_spec (fuel : Nat) :
    ∀ a m b : List Issue, m.length ≤ 2 * fuel + 1 →
      reverseLoop fuel a.length ((a.length : Int) + m.length - 1) (a ++ (m ++ b)) =
        some (a ++ (m.reverse ++ b)) := by
  induction fuel with
  | zero =>
    intro a m b hm
    rcases list_ends_cases m with h | ⟨x, h⟩ | ⟨x, mid, y, h⟩
    · subst h; simp [reverseLoop]
    · subst h; simp [reverseLoop]
    · subst h; simp at hm
  | succ fuel ih =>
    intro a m b hm
    rcases list_ends_cases m with h | ⟨x, h⟩ | ⟨x, mid, y, h⟩
    · subst h; simp [reverseLoop]
    · subst h; simp [reverseLoop]
    · subst h
      have hlt : (a.length : Int) < (a.length : Int) + (x :: (mid ++ [y])).length - 1 := by
        simp; omega
      have htn : ((a.length : Int) + (x :: (mid ++ [y])).length - 1).toNat
          = a.length + mid.length + 1 := by
        simp; omega
      have hsw := swap_ends a mid b x y
      have hlist : a ++ (x :: (mid ++ [y]) ++ b) = a ++ x :: (mid ++ y :: b) := by simp
      rw [reverseLoop, if_pos hlt, htn, hlist, hsw]
      simp only
      have hmid : mid.length ≤ 2 * fuel + 1 := by
        simp at hm; omega
      have := ih (a ++ [y]) mid (x :: b) hmid
      have hj : ((a.length : Int) + (x :: (mid ++ [y])).length - 1 - 1)
          = ((a ++ [y]).length : Int) + mid.length - 1 := by
        simp; omega
      rw [hj]
      have hi : a.length + 1 = (a ++ [y]).length := by simp
      rw [hi]
      have hl2 : a ++ y :: (mid ++ x :: b) = (a ++ [y]) ++ (mid ++ x :: b) := by simp
      rw [hl2, this]
      simp

theorem reverseIssues_eq (issues : List Issue) : reverseIssues issues = some issues.reverse := by
  have := reverseLoop_spec issues.length [] issues [] (by omega)
  simpa [reverseIssues] using this

theorem pageTrace_succ (n : Nat) :
    pageTrace (n + 1) = pageTrace n ++ [Event.ListGroupIssues "k-t-corp" (n + 1) 10] := by
  simp [pageTrace, List.range_succ]

theorem fetchLoop_of_served (env : Env) (pages : List (List Issue)) :
    ∀ (n : Nat) (acc : List Issue) (fuel : Nat), PagesServed env n pages → pages.length < fuel →
      fetchLoop env fuel (n + 1) acc (pageTrace n) =
        some (.ok (acc ++ pages.flatten), pageTrace (n + pages.length + 1)) := by
  induction pages with
  | nil =>
    intro n acc fuel hs hf
    cases fuel with
    | zero => omega
    | succ fuel =>
      have ha : env.ListGroupIssues (pageTrace n) "k-t-corp" (n + 1) 10 = .ok [] := hs
      simp [fetchLoop, ha, pageTrace_succ]
  | cons page rest ih =>
    intro n acc fuel hs hf
    obtain ⟨hp, hne, hrest⟩ := hs
    cases fuel with
    | zero => omega
    | succ fuel =>
      have ha : env.ListGroupIssues (pageTrace n) "k-t-corp" (n + 1) 10 = .ok page := hp
      have hlen : ¬ page.length = 0 := fun h => hne (List.length_eq_zero.mp h)
      have hf2 : rest.length < fuel := by simp at hf; omega
      simp only [fetchLoop, ha, if_neg hlen, appendLoop_eq, ← pageTrace_succ]
      rw [ih (n + 1) (acc ++ page) fuel hrest hf2]
      simp only [List.flatten_cons, List.append_assoc, List.length_cons]
      have : n + 1 + rest.length + 1 = n + (rest.length + 1) + 1 := by omega
      rw [this]

theorem fetchLoop_ok_served (env : Env) (fuel : Nat) :
    ∀ (n : Nat) (acc issues : List Issue) (tr : List Event),
      fetchLoop env fuel (n + 1) acc (pageTrace n) = some (.ok issues, tr) →
      ∃ pages, PagesServed env n pages ∧ pages.length < fuel ∧ issues = acc ++ pages.flatten ∧
        tr = pageTrace (n + pages.length + 1) := by
  induction fuel with
  | zero =>
    intro n acc issues tr h
    simp [fetchLoop] at h
  | succ fuel ih =>
    intro n acc issues tr h
    simp only [fetchLoop, ← pageTrace_succ] at h
    split at h
    · simp at h
    · rename_i page ha
      by_cases hlen : page.length = 0
      · rw [if_pos hlen] at h
        simp only [Option.some.injEq, Prod.mk.injEq, Except.ok.injEq] at h
        have hnil : page = [] := List.length_eq_zero.mp hlen
        refine ⟨[], ?_, by simp, by simp [h.1], by simp [h.2]⟩
        show pageAnswer env n = .ok []
        rw [← hnil]
        exact ha
      · rw [if_neg hlen, appendLoop_eq] at h
        obtain ⟨pages, hs, hl, hi, ht⟩ := ih (n + 1) (acc ++ page) issues tr h
        refine ⟨page :: pages, ⟨ha, fun hnil => hlen (by rw [hnil]; rfl), hs⟩, by simp; omega, ?_, ?_⟩
        · simp [hi]
        · rw [ht]
          simp only [List.length_cons]
          have : n + 1 + pages.length + 1 = n + (pages.length + 1) + 1 := by omega
          rw [this]

theorem getAllIssues_of_served (env : Env) (pages : List (List Issue)) (fuel : Nat)
    (hs : PagesServed env 0 pages) (hf : pages.length < fuel) :
    getAllIssues env fuel = some (.ok pages.flatten.reverse, pageTrace (pages.length + 1)) := by
  have h := fetchLoop_of_served env pages 0 [] fuel hs hf
  have h0 : pageTrace 0 = [] := rfl
  rw [h0] at h
  simp only [getAllIssues, h, reverseIssues_eq]
  simp

theorem getAllIssues_ok_served (env : Env) (fuel : Nat) (issues : List Issue) (tr : List Event)
    (h : getAllIssues env fuel = some (.ok issues, tr)) :
    ∃ pages, PagesServed env 0 pages ∧ pages.length < fuel ∧ issues = pages.flatten.reverse ∧
      tr = pageTrace (pages.length + 1) := by
  simp only [getAllIssues] at h
  split at h
  · simp at h
  · simp at h
  · rename_i fetched tr1 hfetch
    rw [reverseIssues_eq] at h
    simp only [Option.some.injEq, Prod.mk.injEq, Except.ok.injEq] at h
    have h0 : pageTrace 0 = [] := rfl
    rw [← h0] at hfetch
    obtain ⟨pages, hs, hl, hi, ht⟩ := fetchLoop_ok_served env fuel 0 [] fetched tr1 hfetch
    refine ⟨pages, hs, hl, ?_, ?_⟩
    · rw [← h.1, hi]; simp
    · rw [← h.2, ht]; simp

/-! ## Lemmas on the buckets -/

theorem mapLookup_mapStore (m : IssueMap) (k k2 : String) (v : List JiraIssue) :
    mapLookup (mapStore m k v) k2 = if k2 = k then some v else mapLookup m k2 := by
  induction m with
  | nil =>
    by_cases h : k2 = k
    · simp [mapStore, mapLookup, h]
    · have h1 : ¬ k = k2 := fun e => h e.symm
      simp [mapStore, mapLookup, h, h1]
  | cons kv rest ih =>
    obtain ⟨k1, v1⟩ := kv
    by_cases h1 : k1 = k
    · by_cases h2 : k2 = k
      · simp [mapStore, mapLookup, h1, h2]
      · have h3 : ¬ k = k2 := fun e => h2 e.symm
        simp [mapStore, mapLookup, h1, h2, h3]
    · by_cases h2 : k1 = k2
      · have h3 : ¬ k2 = k := fun e => h1 (h2.trans e)
        simp [mapStore, mapLookup, h1, h2, h3]
      · simp [mapStore, mapLookup, h1, h2, ih]

theorem keys_mapStore (m : IssueMap) (k : String) (v : List JiraIssue) :
    (mapStore m k v).map Prod.fst =
      if k ∈ m.map Prod.fst then m.map Prod.fst else m.map Prod.fst ++ [k] := by
  induction m with
  | nil => simp [mapStore]
  | cons kv rest ih =>
    obtain ⟨k1, v1⟩ := kv
    by_cases h1 : k1 = k
    · simp [mapStore, h1]
    · have h2 : ¬ k = k1 := fun e => h1 e.symm
      by_cases h3 : k ∈ rest.map Prod.fst
      · rw [if_pos h3] at ih
        have h4 : k ∈ ((k1, v1) :: rest).map Prod.fst := by
          simp only [List.map_cons, List.mem_cons]
          exact Or.inr h3
        rw [if_pos h4]
        simp only [mapStore, if_neg h1, List.map_cons, ih]
      · rw [if_neg h3] at ih
        have h4 : ¬ k ∈ ((k1, v1) :: rest).map Prod.fst := by
          simp only [List.map_cons, List.mem_cons, not_or]
          exact ⟨h2, h3⟩
        rw [if_neg h4]
        simp only [mapStore, if_neg h1, List.map_cons, ih, List.cons_append]

theorem nodup_keys_mapStore (m : IssueMap) (k : String) (v : List JiraIssue)
    (h : (m.map Prod.fst).Nodup) : ((mapStore m k v).map Prod.fst).Nodup := by
  rw [keys_mapStore]
  by_cases hk : k ∈ m.map Prod.fst
  · rw [if_pos hk]; exact h
  · rw [if_neg hk]
    rw [List.nodup_append]
    refine ⟨h, List.nodup_singleton k, ?_⟩
    intro a ha hb
    rw [List.mem_singleton] at hb
    exact hk (hb ▸ ha)

theorem mapLookup_of_mem (m : IssueMap) (k : String) (v : List JiraIssue)
    (hn : (m.map Prod.fst).Nodup) (h : (k, v) ∈ m) : mapLookup m k = some v := by
  induction m with
  | nil => simp at h
  | cons kv rest ih =>
    obtain ⟨k1, v1⟩ := kv
    simp only [List.map_cons, List.nodup_cons] at hn
    rcases List.mem_cons.mp h with h1 | h1
    · cases h1
      simp [mapLookup]
    · have hk : k1 ≠ k := by
        intro e
        apply hn.1
        rw [e]
        exact List.mem_map_of_mem Prod.fst h1
      simp only [mapLookup, if_neg hk]
      exact ih hn.2 h1

theorem mapLookup_fileIssue (m : IssueMap) (jp k : String) (ji : JiraIssue) :
    mapLookup (fileIssue m jp ji) k =
      if k = jp then some (mapIndex m jp ++ [ji]) else mapLookup m k := by
  cases hl : mapLookup m jp with
  | none =>
    by_cases hk : k = jp
    · simp [fileIssue, hl, mapLookup_mapStore, mapIndex, hk]
    · simp [fileIssue, hl, mapLookup_mapStore, mapIndex, hk]
  | some v =>
    by_cases hk : k = jp
    · simp [fileIssue, hl, mapLookup_mapStore, mapIndex, hk]
    · simp [fileIssue, hl, mapLookup_mapStore, mapIndex, hk]

theorem nodup_keys_fileIssue (m : IssueMap) (jp : String) (ji : JiraIssue)
    (h : (m.map Prod.fst).Nodup) : ((fileIssue m jp ji).map Prod.fst).Nodup := by
  unfold fileIssue
  apply nodup_keys_mapStore
  split
  · exact nodup_keys_mapStore _ _ _ h
  · exact h

theorem bucketOf_snoc (mapped : List (String × JiraIssue)) (jp k : String) (ji : JiraIssue) :
    bucketOf (mapped ++ [(jp, ji)]) k =
      if k = jp then bucketOf mapped k ++ [ji] else bucketOf mapped k := by
  by_cases hk : k = jp
  · simp [bucketOf, List.filter_append, hk, List.filter_cons]
  · have h1 : ¬ jp = k := fun e => hk e.symm
    simp [bucketOf, List.filter_append, hk, h1, List.filter_cons]

theorem buckets_empty : Buckets [] [] := by
  refine ⟨by simp, fun k => ?_⟩
  simp [mapLookup, bucketOf]

theorem buckets_fileIssue (m : IssueMap) (mapped : List (String × JiraIssue)) (jp : String)
    (ji : JiraIssue) (h : Buckets m mapped) :
    Buckets (fileIssue m jp ji) (mapped ++ [(jp, ji)]) := by
  refine ⟨nodup_keys_fileIssue m jp ji h.1, fun k => ?_⟩
  have hidx : mapIndex m jp = bucketOf mapped jp := by
    unfold mapIndex
    rw [h.2 jp]
    by_cases he : bucketOf mapped jp = []
    · simp [he]
    · simp [he]
  rw [mapLookup_fileIssue, bucketOf_snoc, hidx]
  by_cases hk : k = jp
  · subst hk
    simp
  · simp only [if_neg hk]
    exact h.2 k

theorem issuesLoop_ok (config : Config) (env : Env) (issues : List Issue) :
    ∀ (m : IssueMap) (done : List (String × JiraIssue)) (tr : List Event) (res : IssueMap)
      (tr2 : List Event), Buckets m done →
      issuesLoop config env issues m tr = (.ok res, tr2) →
      ∃ mapped, List.Forall₂ (MappedFrom config env) issues mapped ∧
        Buckets res (done ++ mapped) := by
  induction issues with
  | nil =>
    intro m done tr res tr2 hb h
    simp only [issuesLoop, Prod.mk.injEq, Except.ok.injEq] at h
    refine ⟨[], List.Forall₂.nil, ?_⟩
    rw [← h.1]
    simpa using hb
  | cons issue rest ih =>
    intro m done tr res tr2 hb h
    simp only [issuesLoop] at h
    split at h
    · simp at h
    · rename_i jp ji tr1 hmap
      obtain ⟨mapped, hf, hb2⟩ := ih _ _ _ _ _ (buckets_fileIssue m done jp ji hb) h
      refine ⟨(jp, ji) :: mapped, List.Forall₂.cons ⟨tr, tr1, hmap⟩ hf, ?_⟩
      simpa using hb2

theorem projectsLoop_eq (m : IssueMap) (acc : List JiraProject) :
    projectsLoop m acc = acc ++ m.map fun kv => { Key := kv.1, Issues := kv.2 } := by
  induction m generalizing acc with
  | nil => simp [projectsLoop]
  | cons kv rest ih =>
    obtain ⟨k, v⟩ := kv
    simp [projectsLoop, ih]

theorem mem_projects (rangeLe : String → String → Bool) (m : IssueMap) (p : JiraProject)
    (h : p ∈ projectsLoop (rangeOrder rangeLe m) []) : (p.Key, p.Issues) ∈ m := by
  rw [projectsLoop_eq] at h
  simp only [List.nil_append, List.mem_map] at h
  obtain ⟨kv, hkv, hp⟩ := h
  have hm : kv ∈ m := (List.perm_insertionSort _ m).mem_iff.mp hkv
  rw [← hp]
  exact hm

/-! ## Lemmas on the trace -/

theorem exportsWritten_pageTrace (n : Nat) : exportsWritten (pageTrace n) = [] := by
  induction n with
  | zero => rfl
  | succ n ih => simp [pageTrace_succ, exportsWritten, List.filterMap_append] at ih ⊢; exact ih

theorem exportsWritten_determineProject (config : Config) (env : Env) (issue : Issue)
    (tr : List Event) :
    exportsWritten (determineProject config env issue tr).2 = exportsWritten tr := by
  simp only [determineProject]
  split
  · split
    · simp [exportsWritten, List.filterMap_append]
    · split <;> simp [exportsWritten, List.filterMap_append]
  · rfl

theorem exportsWritten_mapIssue (config : Config) (env : Env) (issue : Issue)
    (tr : List Event) :
    exportsWritten (mapIssue config env issue tr).2 = exportsWritten tr := by
  have hd := exportsWritten_determineProject config env issue
    (tr ++ [Event.Println ("Examining \x27" ++ issue.Title ++ "\x27")])
  have hp : exportsWritten (tr ++ [Event.Println ("Examining \x27" ++ issue.Title ++ "\x27")])
      = exportsWritten tr := by
    simp [exportsWritten, List.filterMap_append]
  rw [hp] at hd
  simp only [mapIssue]
  split
  · rename_i p tr1 he
    rw [he] at hd
    exact hd
  · rename_i jp tr1 he
    rw [he] at hd
    split
    · simpa [exportsWritten, List.filterMap_append] using hd
    · simpa [exportsWritten, List.filterMap_append] using hd

theorem exportsWritten_issuesLoop (config : Config) (env : Env) (issues : List Issue) :
    ∀ (m : IssueMap) (tr : List Event),
      exportsWritten (issuesLoop config env issues m tr).2 = exportsWritten tr := by
  induction issues with
  | nil => intro m tr; rfl
  | cons issue rest ih =>
    intro m tr
    have hm := exportsWritten_mapIssue config env issue tr
    simp only [issuesLoop]
    split
    · rename_i p tr1 he
      rw [he] at hm
      exact hm
    · rename_i jp ji tr1 he
      rw [he] at hm
      rw [ih]
      exact hm

theorem remoteCallsSucceedFrom_snoc (env : Env) (tr : List Event) (ev : Event) :
    ∀ done : List Event,
      remoteCallsSucceedFrom env done (tr ++ [ev]) =
        (remoteCallsSucceedFrom env done tr && answerOk env (done ++ tr) ev) := by
  induction tr with
  | nil => intro done; simp [remoteCallsSucceedFrom]
  | cons e rest ih =>
    intro done
    simp [remoteCallsSucceedFrom, ih, Bool.and_assoc]

theorem not_succeed_of_lastCallFailed (env : Env) (tr : List Event)
    (h : LastCallFailed env tr) : remoteCallsSucceed env tr = false := by
  obtain ⟨tr1, ev, htr, hev⟩ := h
  rw [htr, remoteCallsSucceed, remoteCallsSucceedFrom_snoc]
  simp [hev]

/-- A failed mapping of one issue is the unassignable-issue panic or the
failure of the last remote call. -/
theorem mapIssue_error (config : Config) (env : Env) (issue : Issue) (tr tr2 : List Event)
    (p : PanicValue) (h : mapIssue config env issue tr = (.error p, tr2)) :
    p = unassignable ∨ LastCallFailed env tr2 := by
  simp only [mapIssue] at h
  split at h
  · rename_i p1 tr1 hd
    simp only [Prod.mk.injEq, Except.error.injEq] at h
    obtain ⟨h1, h2⟩ := h
    subst h1 h2
    simp only [determineProject] at hd
    split at hd
    · split at hd
      · rename_i e hg
        simp only [Prod.mk.injEq, Except.error.injEq] at hd
        right
        exact ⟨_, _, hd.2.symm, by simp [answerOk, hg]⟩
      · split at hd
        · simp only [Prod.mk.injEq, Except.error.injEq] at hd
          left
          exact hd.1.symm
        · simp at hd
    · simp at hd
  · split at h
    · rename_i jp tr1 hd e hl
      simp only [Prod.mk.injEq, Except.error.injEq] at h
      right
      exact ⟨_, _, h.2.symm, by simp [answerOk, hl]⟩
    · simp at h

/-- An issue with no mapped label and an unmapped repository is never mapped. -/
theorem mapIssue_not_ok (config : Config) (env : Env) (issue : Issue) (tr tr2 : List Event)
    (m : String × JiraIssue)
    (hlabels : ∀ l ∈ issue.Labels, config.GitlabLabelToJiraProject l = none)
    (hrepo : ∀ tr1 gp, env.GetProject tr1 issue.ProjectID = .ok gp →
      config.GitlabRepoToJiraProject gp.PathWithNamespace = none) :
    mapIssue config env issue tr ≠ (.ok m, tr2) := by
  intro h
  obtain ⟨jp, ji⟩ := m
  obtain ⟨tr1, discussions, hd, -, -, -⟩ := mapIssue_ok h
  have hloop := labelProjectLoop_none config.GitlabLabelToJiraProject issue.Labels "" hlabels
  simp only [determineProject, hloop, if_true] at hd
  split at hd
  · simp at hd
  · rename_i gp hg
    rw [hrepo _ gp hg] at hd
    simp at hd

theorem issuesLoop_unassignable (config : Config) (env : Env) (issue : Issue)
    (hlabels : ∀ l ∈ issue.Labels, config.GitlabLabelToJiraProject l = none)
    (hrepo : ∀ tr1 gp, env.GetProject tr1 issue.ProjectID = .ok gp →
      config.GitlabRepoToJiraProject gp.PathWithNamespace = none)
    (issues : List Issue) (hmem : issue ∈ issues) :
    ∀ (m : IssueMap) (tr : List Event),
      ∃ p tr2, issuesLoop config env issues m tr = (.error p, tr2) ∧
        (p = unassignable ∨ LastCallFailed env tr2) := by
  induction issues with
  | nil => simp at hmem
  | cons head rest ih =>
    intro m tr
    simp only [issuesLoop]
    split
    · rename_i p tr1 he
      exact ⟨p, tr1, rfl, mapIssue_error config env head tr tr1 p he⟩
    · rename_i jp ji tr1 he
      rcases List.mem_cons.mp hmem with h1 | h1
      · subst h1
        exact absurd he (mapIssue_not_ok config env issue tr tr1 (jp, ji) hlabels hrepo)
      · exact ih h1 _ _

/-! ## Further lemmas on the mapping of one issue -/

theorem labelProjectLoop_first (m : String → Option String) (before rest : List String)
    (l v init : String) (hbefore : ∀ x ∈ before, m x = none) (hv : m l = some v) :
    labelProjectLoop m (before ++ l :: rest) init = v := by
  induction before with
  | nil => simp [labelProjectLoop, hv]
  | cons x xs ih =>
    have hx : m x = none := hbefore x (List.mem_cons_self x xs)
    simp only [List.cons_append, labelProjectLoop, hx]
    exact ih fun y hy => hbefore y (List.mem_cons_of_mem x hy)

theorem determineProject_ne_empty (config : Config) (env : Env) (issue : Issue)
    (tr tr1 : List Event) (jp : String)
    (h : determineProject config env issue tr = (.ok jp, tr1)) : jp ≠ "" := by
  simp only [determineProject] at h
  split at h
  · split at h
    · simp at h
    · split at h
      · simp at h
      · rename_i hne
        simp only [Prod.mk.injEq, Except.ok.injEq] at h
        rw [← h.1]
        exact hne
  · rename_i hne
    simp only [Prod.mk.injEq, Except.ok.injEq] at h
    rw [← h.1]
    exact hne

theorem mappedFrom_key_ne_empty (config : Config) (env : Env) (issue : Issue)
    (m : String × JiraIssue) (h : MappedFrom config env issue m) : m.1 ≠ "" := by
  obtain ⟨tr, tr2, h⟩ := h
  obtain ⟨jp, ji⟩ := m
  obtain ⟨tr1, discussions, hd, -, -, -⟩ := mapIssue_ok h
  exact determineProject_ne_empty config env issue _ tr1 jp hd

theorem forall₂_exists_left {α β : Type} (R : α → β → Prop) (l1 : List α) (l2 : List β)
    (h : List.Forall₂ R l1 l2) : ∀ y ∈ l2, ∃ x ∈ l1, R x y := by
  induction h with
  | nil => intro y hy; simp at hy
  | cons hr _ ih =>
    intro y hy
    rcases List.mem_cons.mp hy with h1 | h1
    · subst h1
      exact ⟨_, List.mem_cons_self _ _, hr⟩
    · obtain ⟨x, hx, hxy⟩ := ih y h1
      exact ⟨x, List.mem_cons_of_mem _ hx, hxy⟩

/-! ## Further lemmas on the buckets -/

theorem totalIssues_mapStore (m : IssueMap) (k : String) (v : List JiraIssue) :
    totalIssues (mapStore m k v) + (mapIndex m k).length = totalIssues m + v.length := by
  induction m with
  | nil => simp [mapStore, totalIssues, mapIndex, mapLookup]
  | cons kv rest ih =>
    obtain ⟨k1, v1⟩ := kv
    by_cases h1 : k1 = k
    · simp [mapStore, totalIssues, mapIndex, mapLookup, h1]
      omega
    · simp only [mapStore, totalIssues, mapIndex, mapLookup, if_neg h1, List.map_cons,
        List.sum_cons] at ih ⊢
      omega

theorem totalIssues_fileIssue (m : IssueMap) (jp : String) (ji : JiraIssue) :
    totalIssues (fileIssue m jp ji) = totalIssues m + 1 := by
  cases hl : mapLookup m jp with
  | none =>
    have h1 := totalIssues_mapStore m jp []
    have h2 := totalIssues_mapStore (mapStore m jp []) jp
      (mapIndex (mapStore m jp []) jp ++ [ji])
    have h3 : mapIndex m jp = [] := by simp [mapIndex, hl]
    have h4 : mapIndex (mapStore m jp []) jp = [] := by
      simp [mapIndex, mapLookup_mapStore]
    simp only [fileIssue, hl, Option.isNone_none, if_true]
    rw [h3] at h1
    rw [h4] at h2 ⊢
    simp at h1 h2 ⊢
    omega
  | some v =>
    have h2 := totalIssues_mapStore m jp (mapIndex m jp ++ [ji])
    simp only [fileIssue, hl, Option.isNone_some, Bool.false_eq_true, if_false]
    simp at h2
    omega

theorem issuesLoop_total (config : Config) (env : Env) (issues : List Issue) :
    ∀ (m : IssueMap) (tr : List Event) (res : IssueMap) (tr2 : List Event),
      issuesLoop config env issues m tr = (.ok res, tr2) →
      totalIssues res = totalIssues m + issues.length := by
  induction issues with
  | nil =>
    intro m tr res tr2 h
    simp only [issuesLoop, Prod.mk.injEq, Except.ok.injEq] at h
    rw [← h.1]
    simp
  | cons issue rest ih =>
    intro m tr res tr2 h
    simp only [issuesLoop] at h
    split at h
    · simp at h
    · rename_i jp ji tr1 hmap
      rw [ih _ _ _ _ h, totalIssues_fileIssue]
      simp
      omega

theorem mem_of_mapLookup (m : IssueMap) (k : String) (v : List JiraIssue)
    (h : mapLookup m k = some v) : (k, v) ∈ m := by
  induction m with
  | nil => simp [mapLookup] at h
  | cons kv rest ih =>
    obtain ⟨k1, v1⟩ := kv
    by_cases h1 : k1 = k
    · simp only [mapLookup, if_pos h1, Option.some.injEq] at h
      rw [h1, h]
      exact List.mem_cons_self _ _
    · simp only [mapLookup, if_neg h1] at h
      exact List.mem_cons_of_mem _ (ih h)

theorem projects_perm (rangeLe : String → String → Bool) (m : IssueMap) :
    (projectsLoop (rangeOrder rangeLe m) []).Perm
      (m.map fun kv => { Key := kv.1, Issues := kv.2 }) := by
  rw [projectsLoop_eq]
  simp only [List.nil_append]
  exact (List.perm_insertionSort _ m).map _

theorem projects_keys_nodup (rangeLe : String → String → Bool) (m : IssueMap)
    (h : (m.map Prod.fst).Nodup) :
    ((projectsLoop (rangeOrder rangeLe m) []).map fun p => p.Key).Nodup := by
  have hp := (projects_perm rangeLe m).map fun p : JiraProject => p.Key
  rw [hp.nodup_iff]
  simpa [List.map_map, Function.comp_def] using h

theorem projects_total (rangeLe : String → String → Bool) (m : IssueMap) :
    ((projectsLoop (rangeOrder rangeLe m) []).map fun p => p.Issues.length).sum
      = totalIssues m := by
  have hp := (projects_perm rangeLe m).map fun p : JiraProject => p.Issues.length
  rw [hp.sum_eq]
  simp [totalIssues, List.map_map, Function.comp_def]

theorem bucketOf_ne_nil (mapped : List (String × JiraIssue)) (k : String)
    (h : bucketOf mapped k ≠ []) : ∃ ji, (k, ji) ∈ mapped := by
  obtain ⟨ji, hji⟩ := List.exists_mem_of_ne_nil _ h
  simp only [bucketOf, List.mem_map, List.mem_filter, decide_eq_true_eq] at hji
  obtain ⟨m, ⟨hm, hk⟩, hm2⟩ := hji
  refine ⟨ji, ?_⟩
  rw [← hk, ← hm2]
  exact hm

theorem mem_bucketOf (mapped : List (String × JiraIssue)) (k : String) (ji : JiraIssue)
    (h : (k, ji) ∈ mapped) : ji ∈ bucketOf mapped k := by
  simp only [bucketOf, List.mem_map, List.mem_filter, decide_eq_true_eq]
  exact ⟨(k, ji), ⟨h, rfl⟩, rfl⟩

/-- The projects of the export built from buckets that hold the mapped
issues. -/
theorem projects_of_buckets (rangeLe : String → String → Bool) (m : IssueMap)
    (mapped : List (String × JiraIssue)) (hb : Buckets m mapped) :
    (∀ p ∈ projectsLoop (rangeOrder rangeLe m) [],
      p.Issues = bucketOf mapped p.Key ∧ p.Issues ≠ []) ∧
    (∀ k ji, (k, ji) ∈ mapped → ∃ p ∈ projectsLoop (rangeOrder rangeLe m) [],
      p.Key = k ∧ ji ∈ p.Issues) := by
  constructor
  · intro p hp
    have hmem := mem_projects rangeLe m p hp
    have hlook := mapLookup_of_mem m p.Key p.Issues hb.1 hmem
    rw [hb.2 p.Key] at hlook
    split at hlook
    · simp at hlook
    · rename_i hne
      simp only [Option.some.injEq] at hlook
      rw [← hlook]
      exact ⟨rfl, hne⟩
  · intro k ji hk
    have hin := mem_bucketOf mapped k ji hk
    have hne : bucketOf mapped k ≠ [] := List.ne_nil_of_mem hin
    have hlook := hb.2 k
    rw [if_neg hne] at hlook
    have hmem := mem_of_mapLookup m k _ hlook
    refine ⟨{ Key := k, Issues := bucketOf mapped k }, ?_, rfl, hin⟩
    rw [(projects_perm rangeLe m).mem_iff]
    exact List.mem_map.mpr ⟨(k, bucketOf mapped k), hmem, rfl⟩

/-! ## Further lemmas on the trace -/

theorem remoteCallsSucceed_snoc (env : Env) (tr : List Event) (ev : Event) :
    remoteCallsSucceed env (tr ++ [ev]) = (remoteCallsSucceed env tr && answerOk env tr ev) := by
  simp [remoteCallsSucceed, remoteCallsSucceedFrom_snoc]

theorem remoteCallsSucceedFrom_append (env : Env) (a b : List Event) :
    ∀ done : List Event,
      remoteCallsSucceedFrom env done (a ++ b) =
        (remoteCallsSucceedFrom env done a && remoteCallsSucceedFrom env (done ++ a) b) := by
  induction a with
  | nil => intro done; simp [remoteCallsSucceedFrom]
  | cons e rest ih =>
    intro done
    simp [remoteCallsSucceedFrom, ih, Bool.and_assoc]

/-- In a trace all of whose remote calls succeeded, every call made was
answered without error. -/
theorem answerOk_of_made (env : Env) (tr tr1 : List Event) (ev : Event)
    (h : remoteCallsSucceed env tr = true) (hp : (tr1 ++ [ev]) <+: tr) :
    answerOk env tr1 ev = true := by
  obtain ⟨rest, hrest⟩ := hp
  rw [← hrest, remoteCallsSucceed, remoteCallsSucceedFrom_append] at h
  simp only [List.nil_append, Bool.and_eq_true] at h
  have h1 := h.1
  rw [remoteCallsSucceedFrom_snoc] at h1
  simp only [List.nil_append, Bool.and_eq_true] at h1
  exact h1.2

theorem answerOk_of_answerError (env : Env) (tr : List Event) (ev : Event) (e : Error)
    (h : answerError env tr ev = some e) : answerOk env tr ev = false := by
  cases ev with
  | ListGroupIssues gid page perPage =>
    simp only [answerError, answerOk] at h ⊢
    split at h <;> simp_all
  | GetProject pid =>
    simp only [answerError, answerOk] at h ⊢
    split at h <;> simp_all
  | ListIssueDiscussions pid issue =>
    simp only [answerError, answerOk] at h ⊢
    split at h <;> simp_all
  | Println line => simp [answerError] at h
  | WriteFile f d => simp [answerError] at h

theorem answerError_of_not_answerOk (env : Env) (tr : List Event) (ev : Event)
    (h : answerOk env tr ev = false) : ∃ e, answerError env tr ev = some e := by
  cases ev with
  | ListGroupIssues gid page perPage =>
    simp only [answerError, answerOk] at h ⊢
    split at h <;> simp_all
  | GetProject pid =>
    simp only [answerError, answerOk] at h ⊢
    split at h <;> simp_all
  | ListIssueDiscussions pid issue =>
    simp only [answerError, answerOk] at h ⊢
    split at h <;> simp_all
  | Println line => simp [answerOk] at h
  | WriteFile f d => simp [answerOk] at h

theorem not_succeed_of_abortedByCall (env : Env) (tr : List Event) (p : PanicValue)
    (h : AbortedByCall env tr p) : remoteCallsSucceed env tr = false := by
  obtain ⟨tr1, ev, e, htr, -, herr, -⟩ := h
  rw [htr, remoteCallsSucceed_snoc, answerOk_of_answerError env tr1 ev e herr]
  simp

/-- One iteration of the issue loop, started after remote calls that all
succeeded: a mapped issue or the unassignable-issue panic leaves a trace of
successful calls, and any other panic is the error of the last call. -/
theorem mapIssue_sound (config : Config) (env : Env) (issue : Issue) (tr tr2 : List Event)
    (res : Except PanicValue (String × JiraIssue))
    (hr : remoteCallsSucceed env tr = true)
    (h : mapIssue config env issue tr = (res, tr2)) :
    (∀ m, res = .ok m → remoteCallsSucceed env tr2 = true) ∧
    (∀ p, res = .error p →
      (p = unassignable ∧ remoteCallsSucceed env tr2 = true) ∨ AbortedByCall env tr2 p) := by
  have h0 : remoteCallsSucceed env
      (tr ++ [Event.Println ("Examining \x27" ++ issue.Title ++ "\x27")]) = true := by
    rw [remoteCallsSucceed_snoc, hr]
    rfl
  simp only [mapIssue, determineProject] at h
  split at h
  · -- the project is not determined
    rename_i p tr1 hd
    simp only [Prod.mk.injEq] at h
    obtain ⟨h1, h2⟩ := h
    subst h1 h2
    refine ⟨fun m hm => by simp at hm, ?_⟩
    intro p1 hp1
    simp only [Except.error.injEq] at hp1
    subst hp1
    split at hd
    · split at hd
      · rename_i e hg
        simp only [Prod.mk.injEq, Except.error.injEq] at hd
        right
        exact ⟨_, _, e, hd.2.symm, h0, by simp [answerError, hg], hd.1.symm⟩
      · rename_i gp hg
        split at hd
        · simp only [Prod.mk.injEq, Except.error.injEq] at hd
          left
          refine ⟨hd.1.symm, ?_⟩
          rw [← hd.2, remoteCallsSucceed_snoc, h0]
          simp [answerOk, hg]
        · simp at hd
    · simp at hd
  · rename_i jp tr1 hd
    have htr1 : remoteCallsSucceed env tr1 = true := by
      split at hd
      · split at hd
        · simp at hd
        · rename_i gp hg
          split at hd
          · simp at hd
          · simp only [Prod.mk.injEq, Except.ok.injEq] at hd
            rw [← hd.2, remoteCallsSucceed_snoc, h0]
            simp [answerOk, hg]
      · simp only [Prod.mk.injEq, Except.ok.injEq] at hd
        rw [← hd.2]
        exact h0
    split at h
    · rename_i e hl
      simp only [Prod.mk.injEq] at h
      obtain ⟨h1, h2⟩ := h
      subst h1 h2
      refine ⟨fun m hm => by simp at hm, ?_⟩
      intro p1 hp1
      simp only [Except.error.injEq] at hp1
      right
      exact ⟨_, _, e, rfl, htr1, by simp [answerError, hl], hp1.symm⟩
    · rename_i discussions hl
      simp only [Prod.mk.injEq] at h
      obtain ⟨h1, h2⟩ := h
      subst h1 h2
      refine ⟨fun m _ => ?_, fun p hp => by simp at hp⟩
      rw [remoteCallsSucceed_snoc, htr1]
      simp [answerOk, hl]

theorem issuesLoop_sound (config : Config) (env : Env) (issues : List Issue) :
    ∀ (m : IssueMap) (tr tr2 : List Event) (res : Except PanicValue IssueMap),
      remoteCallsSucceed env tr = true →
      issuesLoop config env issues m tr = (res, tr2) →
      (∀ r, res = .ok r → remoteCallsSucceed env tr2 = true) ∧
      (∀ p, res = .error p →
        (p = unassignable ∧ remoteCallsSucceed env tr2 = true) ∨ AbortedByCall env tr2 p) := by
  induction issues with
  | nil =>
    intro m tr tr2 res hr h
    simp only [issuesLoop, Prod.mk.injEq] at h
    obtain ⟨h1, h2⟩ := h
    subst h1 h2
    exact ⟨fun _ _ => hr, fun p hp => by simp at hp⟩
  | cons issue rest ih =>
    intro m tr tr2 res hr h
    simp only [issuesLoop] at h
    split at h
    · rename_i p tr1 hmap
      simp only [Prod.mk.injEq] at h
      obtain ⟨h1, h2⟩ := h
      subst h1 h2
      refine ⟨fun r hr1 => by simp at hr1, ?_⟩
      intro p1 hp1
      simp only [Except.error.injEq] at hp1
      subst hp1
      exact (mapIssue_sound config env issue tr tr1 _ hr hmap).2 p rfl
    · rename_i jp ji tr1 hmap
      have h1 := (mapIssue_sound config env issue tr tr1 _ hr hmap).1 _ rfl
      exact ih _ _ _ _ h1 h

theorem fetchLoop_sound (env : Env) (fuel : Nat) :
    ∀ (pageNum : Nat) (acc : List Issue) (tr tr2 : List Event)
      (res : Except PanicValue (List Issue)),
      remoteCallsSucceed env tr = true →
      fetchLoop env fuel pageNum acc tr = some (res, tr2) →
      exportsWritten tr2 = exportsWritten tr ∧
      (∀ r, res = .ok r → remoteCallsSucceed env tr2 = true) ∧
      (∀ p, res = .error p → AbortedByCall env tr2 p) := by
  induction fuel with
  | zero =>
    intro pageNum acc tr tr2 res hr h
    simp [fetchLoop] at h
  | succ fuel ih =>
    intro pageNum acc tr tr2 res hr h
    have hexp : exportsWritten (tr ++ [Event.ListGroupIssues "k-t-corp" pageNum 10])
        = exportsWritten tr := by
      simp [exportsWritten, List.filterMap_append]
    simp only [fetchLoop] at h
    split at h
    · rename_i e ha
      simp only [Option.some.injEq, Prod.mk.injEq] at h
      obtain ⟨h1, h2⟩ := h
      subst h1 h2
      refine ⟨hexp, fun r hr1 => by simp at hr1, ?_⟩
      intro p hp
      simp only [Except.error.injEq] at hp
      exact ⟨_, _, e, rfl, hr, by simp [answerError, ha], hp.symm⟩
    · rename_i page ha
      have hr1 : remoteCallsSucceed env (tr ++ [Event.ListGroupIssues "k-t-corp" pageNum 10])
          = true := by
        rw [remoteCallsSucceed_snoc, hr]
        simp [answerOk, ha]
      split at h
      · simp only [Option.some.injEq, Prod.mk.injEq] at h
        obtain ⟨h1, h2⟩ := h
        subst h1 h2
        exact ⟨hexp, fun _ _ => hr1, fun p hp => by simp at hp⟩
      · obtain ⟨h1, h2, h3⟩ := ih _ _ _ _ _ hr1 h
        exact ⟨h1.trans hexp, h2, h3⟩

theorem getAllIssues_sound (env : Env) (fuel : Nat) (tr : List Event)
    (res : Except PanicValue (List Issue))
    (h : getAllIssues env fuel = some (res, tr)) :
    exportsWritten tr = [] ∧
    (∀ r, res = .ok r → remoteCallsSucceed env tr = true) ∧
    (∀ p, res = .error p → AbortedByCall env tr p) := by
  simp only [getAllIssues] at h
  split at h
  · simp at h
  · rename_i p tr1 hf
    simp only [Option.some.injEq, Prod.mk.injEq] at h
    obtain ⟨h1, h2⟩ := h
    subst h1 h2
    exact fetchLoop_sound env fuel 1 [] [] tr1 _ rfl hf
  · rename_i issues tr1 hf
    rw [reverseIssues_eq] at h
    simp only [Option.some.injEq, Prod.mk.injEq] at h
    obtain ⟨h1, h2⟩ := h
    subst h1 h2
    obtain ⟨h3, h4, -⟩ := fetchLoop_sound env fuel 1 [] [] tr1 _ rfl hf
    exact ⟨h3, fun _ _ => h4 _ rfl, fun p hp => by simp at hp⟩

/-! ## Lemmas on the whole run -/

/-- The three ways in which a run ends: in the fetch, in the issue loop, or
at the write of the export. -/
theorem main_cases (config : Config) (env : Env) (rangeLe : String → String → Bool)
    (fuel : Nat) (r : RunResult) (h : main config env rangeLe fuel = some r) :
    (∃ p, getAllIssues env fuel = some (.error p, r.trace) ∧ r.panic = some p) ∨
    ∃ issues tr, getAllIssues env fuel = some (.ok issues, tr) ∧
      ((∃ p, issuesLoop config env issues [] tr = (.error p, r.trace) ∧ r.panic = some p) ∨
       ∃ projectIssues tr1, issuesLoop config env issues [] tr = (.ok projectIssues, tr1) ∧
         r.trace = tr1 ++ [Event.WriteFile "export.json"
           { Projects := projectsLoop (rangeOrder rangeLe projectIssues) [] }] ∧
         ((env.WriteFile tr1 "export.json"
             { Projects := projectsLoop (rangeOrder rangeLe projectIssues) [] } = .ok () ∧
           r.panic = none) ∨
          ∃ e, env.WriteFile tr1 "export.json"
             { Projects := projectsLoop (rangeOrder rangeLe projectIssues) [] } = .error e ∧
           r.panic = some (.err e))) := by
  simp only [main] at h
  split at h
  · simp at h
  · rename_i p tr hg
    simp only [Option.some.injEq] at h
    subst h
    exact Or.inl ⟨p, hg, rfl⟩
  · rename_i issues tr hg
    refine Or.inr ⟨issues, tr, hg, ?_⟩
    split at h
    · rename_i p tr1 hl
      simp only [Option.some.injEq] at h
      subst h
      exact Or.inl ⟨p, hl, rfl⟩
    · rename_i projectIssues tr1 hl
      refine Or.inr ⟨projectIssues, tr1, hl, ?_⟩
      split at h
      · rename_i e hw
        simp only [Option.some.injEq] at h
        subst h
        exact ⟨rfl, Or.inr ⟨e, hw, rfl⟩⟩
      · rename_i u hw
        simp only [Option.some.injEq] at h
        subst h
        exact ⟨rfl, Or.inl ⟨hw, rfl⟩⟩

/-- A run that ends without panic, or in which the export was written, has
fetched all pages and mapped every issue into the buckets that are exported. -/
theorem main_export (config : Config) (env : Env) (rangeLe : String → String → Bool)
    (fuel : Nat) (r : RunResult) (hrun : main config env rangeLe fuel = some r)
    (h : r.panic = none ∨ exportsWritten r.trace ≠ []) :
    ∃ (pages : List (List Issue)) (mapped : List (String × JiraIssue))
      (projectIssues : IssueMap),
      PagesServed env 0 pages ∧ pages.length < fuel ∧
      List.Forall₂ (MappedFrom config env) pages.flatten.reverse mapped ∧
      Buckets projectIssues mapped ∧
      totalIssues projectIssues = pages.flatten.length ∧
      exportsWritten r.trace =
        [{ Projects := projectsLoop (rangeOrder rangeLe projectIssues) [] }] ∧
      remoteCallsSucceed env r.trace = true := by
  rcases main_cases config env rangeLe fuel r hrun with
    ⟨p, hg, hp⟩ | ⟨issues, tr, hg, ⟨p, hl, hp⟩ | ⟨projectIssues, tr1, hl, htr, hw⟩⟩
  · exfalso
    rcases h with h | h
    · rw [hp] at h; simp at h
    · exact h (getAllIssues_sound env fuel _ _ hg).1
  · exfalso
    rcases h with h | h
    · rw [hp] at h; simp at h
    · apply h
      have h1 := exportsWritten_issuesLoop config env issues [] tr
      rw [hl, (getAllIssues_sound env fuel _ _ hg).1] at h1
      exact h1
  · obtain ⟨pages, hserved, hlen, hissues, -⟩ := getAllIssues_ok_served env fuel issues tr hg
    obtain ⟨mapped, hmapped, hb⟩ :=
      issuesLoop_ok config env issues [] [] tr projectIssues tr1 buckets_empty hl
    have htotal := issuesLoop_total config env issues [] tr projectIssues tr1 hl
    have hexp : exportsWritten tr1 = [] := by
      have h1 := exportsWritten_issuesLoop config env issues [] tr
      rw [hl, (getAllIssues_sound env fuel _ _ hg).1] at h1
      exact h1
    have hr0 := (getAllIssues_sound env fuel _ _ hg).2.1 _ rfl
    have hr1 := (issuesLoop_sound config env issues [] tr tr1 _ hr0 hl).1 _ rfl
    refine ⟨pages, mapped, projectIssues, hserved, hlen, hissues ▸ hmapped, ?_, ?_, ?_, ?_⟩
    · simpa using hb
    · rw [htotal, hissues]
      simp [totalIssues]
    · rw [htr]
      simp only [exportsWritten, List.filterMap_append] at hexp ⊢
      rw [hexp]
      rfl
    · rw [htr, remoteCallsSucceed_snoc, hr1]
      rfl

/-- A run either made only successful remote calls, or was aborted by the
failure of its last call before anything was written. -/
theorem main_sound (config : Config) (env : Env) (rangeLe : String → String → Bool)
    (fuel : Nat) (r : RunResult) (hrun : main config env rangeLe fuel = some r) :
    remoteCallsSucceed env r.trace = true ∨
    ∃ p, r.panic = some p ∧ AbortedByCall env r.trace p ∧ exportsWritten r.trace = [] := by
  rcases main_cases config env rangeLe fuel r hrun with
    ⟨p, hg, hp⟩ | ⟨issues, tr, hg, ⟨p, hl, hp⟩ | ⟨projectIssues, tr1, hl, htr, hw⟩⟩
  · obtain ⟨h1, -, h3⟩ := getAllIssues_sound env fuel _ _ hg
    exact Or.inr ⟨p, hp, h3 p rfl, h1⟩
  · have hr0 := (getAllIssues_sound env fuel _ _ hg).2.1 _ rfl
    have hexp : exportsWritten r.trace = [] := by
      have h1 := exportsWritten_issuesLoop config env issues [] tr
      rw [hl, (getAllIssues_sound env fuel _ _ hg).1] at h1
      exact h1
    rcases (issuesLoop_sound config env issues [] tr r.trace _ hr0 hl).2 p rfl with h1 | h1
    · exact Or.inl h1.2
    · exact Or.inr ⟨p, hp, h1, hexp⟩
  · have hr0 := (getAllIssues_sound env fuel _ _ hg).2.1 _ rfl
    have hr1 := (issuesLoop_sound config env issues [] tr tr1 _ hr0 hl).1 _ rfl
    left
    rw [htr, remoteCallsSucceed_snoc, hr1]
    rfl

/-! ## Lemmas on the dependence of a run on the repository lookups -/

/-- One iteration of the issue loop depends on the outside world only through
the discussion request and, when the label scan yields nothing, through the
repository lookup made right after the progress line. -/
theorem mapIssue_congr (config : Config) (env1 env2 : Env) (issue : Issue) (tr : List Event)
    (hD : env2.ListIssueDiscussions = env1.ListIssueDiscussions)
    (hG : labelScan config issue = "" →
      env2.GetProject (tr ++ [Event.Println ("Examining \x27" ++ issue.Title ++ "\x27")])
        issue.ProjectID =
      env1.GetProject (tr ++ [Event.Println ("Examining \x27" ++ issue.Title ++ "\x27")])
        issue.ProjectID) :
    mapIssue config env2 issue tr = mapIssue config env1 issue tr := by
  by_cases hscan : labelScan config issue = ""
  · have hs : labelProjectLoop config.GitlabLabelToJiraProject issue.Labels "" = "" := hscan
    simp only [mapIssue, determineProject, hs, if_true, hG hscan, hD]
  · have hs : ¬ labelProjectLoop config.GitlabLabelToJiraProject issue.Labels "" = "" := hscan
    simp only [mapIssue, determineProject, if_neg hs, hD]

theorem mapIssue_extends (config : Config) (env : Env) (issue : Issue) (tr : List Event) :
    tr <+: (mapIssue config env issue tr).2 := by
  simp only [mapIssue, determineProject]
  split
  · rename_i p tr1 hd
    split at hd
    · split at hd
      · simp only [Prod.mk.injEq] at hd
        rw [← hd.2, List.append_assoc]
        exact List.prefix_append _ _
      · split at hd
        · simp only [Prod.mk.injEq] at hd
          rw [← hd.2, List.append_assoc]
          exact List.prefix_append _ _
        · simp at hd
    · simp at hd
  · rename_i jp tr1 hd
    have h1 : tr <+: tr1 := by
      split at hd
      · split at hd
        · simp at hd
        · split at hd
          · simp at hd
          · simp only [Prod.mk.injEq] at hd
            rw [← hd.2, List.append_assoc]
            exact List.prefix_append _ _
      · simp only [Prod.mk.injEq] at hd
        rw [← hd.2]
        exact List.prefix_append _ _
    split
    · exact h1.trans (List.prefix_append _ _)
    · exact h1.trans (List.prefix_append _ _)

theorem issuesLoop_extends (config : Config) (env : Env) (issues : List Issue) :
    ∀ (m : IssueMap) (tr : List Event), tr <+: (issuesLoop config env issues m tr).2 := by
  induction issues with
  | nil => intro m tr; exact List.prefix_refl _
  | cons issue rest ih =>
    intro m tr
    have h1 := mapIssue_extends config env issue tr
    simp only [issuesLoop]
    split
    · rename_i p tr1 he
      rw [he] at h1
      exact h1
    · rename_i jp ji tr1 he
      rw [he] at h1
      exact h1.trans (ih _ _)

/-- When the label scan yields nothing, the repository lookup is made right
after the progress line. -/
theorem mapIssue_lookup_made (config : Config) (env : Env) (issue : Issue) (tr : List Event)
    (hscan : labelScan config issue = "") :
    (tr ++ [Event.Println ("Examining \x27" ++ issue.Title ++ "\x27")]
      ++ [Event.GetProject issue.ProjectID]) <+: (mapIssue config env issue tr).2 := by
  have hs : labelProjectLoop config.GitlabLabelToJiraProject issue.Labels "" = "" := hscan
  simp only [mapIssue, determineProject, hs, if_true]
  split
  · rename_i p tr1 hd
    split at hd
    · simp only [Prod.mk.injEq] at hd
      rw [← hd.2]
    · split at hd
      · simp only [Prod.mk.injEq] at hd
        rw [← hd.2]
      · simp at hd
  · rename_i jp tr1 hd
    have h1 : (tr ++ [Event.Println ("Examining \x27" ++ issue.Title ++ "\x27")]
        ++ [Event.GetProject issue.ProjectID]) <+: tr1 := by
      split at hd
      · simp at hd
      · split at hd
        · simp at hd
        · simp only [Prod.mk.injEq] at hd
          rw [← hd.2]
    split
    · exact h1.trans (List.prefix_append _ _)
    · exact h1.trans (List.prefix_append _ _)

theorem getProjectCalls_mapIssue (config : Config) (env : Env) (issue : Issue)
    (tr : List Event) :
    getProjectCalls (mapIssue config env issue tr).2 =
      getProjectCalls tr ++ (if labelScan config issue = "" then [issue.ProjectID] else []) := by
  by_cases hscan : labelScan config issue = ""
  · have hs : labelProjectLoop config.GitlabLabelToJiraProject issue.Labels "" = "" := hscan
    simp only [mapIssue, determineProject, hs, if_true, if_pos hscan]
    split
    · rename_i p tr1 hd
      split at hd
      · simp only [Prod.mk.injEq] at hd
        rw [← hd.2]
        simp [getProjectCalls, List.filterMap_append]
      · split at hd
        · simp only [Prod.mk.injEq] at hd
          rw [← hd.2]
          simp [getProjectCalls, List.filterMap_append]
        · simp at hd
    · rename_i jp tr1 hd
      have h1 : getProjectCalls tr1 = getProjectCalls tr ++ [issue.ProjectID] := by
        split at hd
        · simp at hd
        · split at hd
          · simp at hd
          · simp only [Prod.mk.injEq] at hd
            rw [← hd.2]
            simp [getProjectCalls, List.filterMap_append]
      split
      · simpa [getProjectCalls, List.filterMap_append] using h1
      · simpa [getProjectCalls, List.filterMap_append] using h1
  · have hs : ¬ labelProjectLoop config.GitlabLabelToJiraProject issue.Labels "" = "" := hscan
    simp only [mapIssue, determineProject, if_neg hs, if_neg hscan]
    split <;> simp [getProjectCalls, List.filterMap_append]

theorem issuesLoop_congr (config : Config) (env1 env2 : Env)
    (hD : env2.ListIssueDiscussions = env1.ListIssueDiscussions) (issues : List Issue) :
    ∀ (m : IssueMap) (tr : List Event),
      (∀ t pid, (t ++ [Event.GetProject pid]) <+: (issuesLoop config env1 issues m tr).2 →
        env2.GetProject t pid = env1.GetProject t pid) →
      issuesLoop config env2 issues m tr = issuesLoop config env1 issues m tr := by
  induction issues with
  | nil => intro m tr _; rfl
  | cons issue rest ih =>
    intro m tr hG
    have hpre : (mapIssue config env1 issue tr).2 <+:
        (issuesLoop config env1 (issue :: rest) m tr).2 := by
      simp only [issuesLoop]
      split
      · rename_i p tr1 he
        rw [he]
      · rename_i jp ji tr1 he
        rw [he]
        exact issuesLoop_extends config env1 rest _ tr1
    have hmap : mapIssue config env2 issue tr = mapIssue config env1 issue tr := by
      apply mapIssue_congr config env1 env2 issue tr hD
      intro hscan
      exact hG _ _ ((mapIssue_lookup_made config env1 issue tr hscan).trans hpre)
    simp only [issuesLoop, hmap]
    split
    · rfl
    · rename_i jp ji tr1 he
      apply ih
      intro t pid ht
      apply hG
      simp only [issuesLoop, he]
      exact ht

theorem fetchLoop_congr (env1 env2 : Env) (hL : env2.ListGroupIssues = env1.ListGroupIssues)
    (fuel : Nat) :
    ∀ (pageNum : Nat) (acc : List Issue) (tr : List Event),
      fetchLoop env2 fuel pageNum acc tr = fetchLoop env1 fuel pageNum acc tr := by
  induction fuel with
  | zero => intro pageNum acc tr; rfl
  | succ fuel ih =>
    intro pageNum acc tr
    simp only [fetchLoop, hL, ih]

/-- A run is the same in two worlds that agree on everything but repository
lookups and on the repository lookups that the run makes. -/
theorem main_congr (config : Config) (env1 env2 : Env) (rangeLe : String → String → Bool)
    (fuel : Nat) (r : RunResult) (hrun : main config env1 rangeLe fuel = some r)
    (hagree : AgreeExceptGetProject env1 env2)
    (hG : ∀ t pid, (t ++ [Event.GetProject pid]) <+: r.trace →
      env2.GetProject t pid = env1.GetProject t pid) :
    main config env2 rangeLe fuel = some r := by
  obtain ⟨hL, hD, hW⟩ := hagree
  have hget : getAllIssues env2 fuel = getAllIssues env1 fuel := by
    simp only [getAllIssues, fetchLoop_congr env1 env2 hL]
  have hloop : ∀ issues tr, (issuesLoop config env1 issues [] tr).2 <+: r.trace →
      issuesLoop config env2 issues [] tr = issuesLoop config env1 issues [] tr := by
    intro issues tr hpre
    apply issuesLoop_congr config env1 env2 hD
    intro t pid ht
    exact hG t pid (ht.trans hpre)
  rcases main_cases config env1 rangeLe fuel r hrun with
    ⟨p, hg, hp⟩ | ⟨issues, tr, hg, ⟨p, hl, hp⟩ | ⟨projectIssues, tr1, hl, htr, hw⟩⟩
  · rw [← hrun]
    simp only [main, hget, hg]
  · have h1 := hloop issues tr (by rw [hl])
    rw [← hrun]
    simp only [main, hget, hg, h1, hl]
  · have h1 := hloop issues tr (by rw [hl, htr]; exact List.prefix_append _ _)
    rw [← hrun]
    simp only [main, hget, hg, h1, hl, hW]

theorem getProjectCalls_pageTrace (n : Nat) : getProjectCalls (pageTrace n) = [] := by
  induction n with
  | zero => rfl
  | succ n ih =>
    simp [pageTrace_succ, getProjectCalls, List.filterMap_append] at ih ⊢
    exact ih

theorem getProjectCalls_issuesLoop (config : Config) (env : Env) (issues : List Issue) :
    ∀ (m res : IssueMap) (tr tr2 : List Event),
      issuesLoop config env issues m tr = (.ok res, tr2) →
      getProjectCalls tr2 = getProjectCalls tr ++
        (issues.filter fun i => labelScan config i = "").map fun i => i.ProjectID := by
  induction issues with
  | nil =>
    intro m res tr tr2 h
    simp only [issuesLoop, Prod.mk.injEq] at h
    rw [← h.2]
    simp
  | cons issue rest ih =>
    intro m res tr tr2 h
    have h1 := getProjectCalls_mapIssue config env issue tr
    simp only [issuesLoop] at h
    split at h
    · simp at h
    · rename_i jp ji tr1 he
      rw [he] at h1
      rw [ih _ _ _ _ h, h1]
      by_cases hscan : labelScan config issue = ""
      · simp [hscan, List.filter_cons]
      · simp [hscan, List.filter_cons]

/-! ## Further lemmas on the fetch loop -/

theorem pagesServed_of_answers (env : Env) (n : Nat) :
    ∀ start : Nat, pageAnswer env (start + n) = .ok [] →
      (∀ i < n, ∃ page, pageAnswer env (start + i) = .ok page) →
      ∃ pages, PagesServed env start pages ∧ pages.length ≤ n := by
  induction n with
  | zero =>
    intro start hempty _
    exact ⟨[], hempty, Nat.le_refl _⟩
  | succ n ih =>
    intro start hempty hok
    obtain ⟨page, hpage⟩ := hok 0 (Nat.succ_pos n)
    by_cases hnil : page = []
    · refine ⟨[], ?_, Nat.zero_le _⟩
      rw [hnil] at hpage
      exact hpage
    · have hempty2 : pageAnswer env (start + 1 + n) = .ok [] := by
        have : start + 1 + n = start + (n + 1) := by omega
        rw [this]
        exact hempty
      have hok2 : ∀ i < n, ∃ p, pageAnswer env (start + 1 + i) = .ok p := by
        intro i hi
        have : start + 1 + i = start + (i + 1) := by omega
        rw [this]
        exact hok (i + 1) (by omega)
      obtain ⟨pages, hs, hl⟩ := ih (start + 1) hempty2 hok2
      exact ⟨page :: pages, ⟨hpage, hnil, hs⟩, by simp; omega⟩

theorem pagesServed_answers (env : Env) (pages : List (List Issue)) :
    ∀ start : Nat, PagesServed env start pages →
      pageAnswer env (start + pages.length) = .ok [] ∧
      ∀ i < pages.length, ∃ page, pageAnswer env (start + i) = .ok page ∧ page ≠ [] := by
  induction pages with
  | nil =>
    intro start hs
    exact ⟨hs, fun i hi => by simp at hi⟩
  | cons page rest ih =>
    intro start hs
    obtain ⟨hp, hne, hrest⟩ := hs
    obtain ⟨h1, h2⟩ := ih (start + 1) hrest
    constructor
    · have : start + (page :: rest).length = start + 1 + rest.length := by simp; omega
      rw [this]
      exact h1
    · intro i hi
      cases i with
      | zero => exact ⟨page, hp, hne⟩
      | succ i =>
        have : start + (i + 1) = start + 1 + i := by omega
        rw [this]
        exact h2 i (by simp at hi; omega)

theorem fetchLoop_out_of_fuel (env : Env) (pages : List (List Issue)) :
    ∀ (n : Nat) (acc : List Issue) (fuel : Nat), PagesServed env n pages → fuel ≤ pages.length →
      fetchLoop env fuel (n + 1) acc (pageTrace n) = none := by
  induction pages with
  | nil =>
    intro n acc fuel _ hf
    have : fuel = 0 := by simpa using hf
    subst this
    rfl
  | cons page rest ih =>
    intro n acc fuel hs hf
    obtain ⟨hp, hne, hrest⟩ := hs
    cases fuel with
    | zero => rfl
    | succ fuel =>
      have ha : env.ListGroupIssues (pageTrace n) "k-t-corp" (n + 1) 10 = .ok page := hp
      have hlen : ¬ page.length = 0 := fun h => hne (List.length_eq_zero.mp h)
      simp only [fetchLoop, ha, if_neg hlen, ← pageTrace_succ]
      exact ih (n + 1) _ fuel hrest (by simp at hf; omega)

theorem pageRequests_pageTrace (n : Nat) :
    pageRequests (pageTrace n) = (List.range n).map fun i => ("k-t-corp", i + 1, 10) := by
  induction n with
  | zero => rfl
  | succ n ih =>
    rw [pageTrace_succ, List.range_succ]
    simp only [pageRequests, List.filterMap_append, List.map_append] at ih ⊢
    rw [ih]
    rfl

theorem pageRequests_mapIssue (config : Config) (env : Env) (issue : Issue)
    (tr : List Event) :
    pageRequests (mapIssue config env issue tr).2 = pageRequests tr := by
  simp only [mapIssue, determineProject]
  split
  · rename_i p tr1 hd
    split at hd
    · split at hd
      · simp only [Prod.mk.injEq] at hd
        rw [← hd.2]
        simp [pageRequests, List.filterMap_append]
      · split at hd
        · simp only [Prod.mk.injEq] at hd
          rw [← hd.2]
          simp [pageRequests, List.filterMap_append]
        · simp at hd
    · simp at hd
  · rename_i jp tr1 hd
    have h1 : pageRequests tr1 = pageRequests tr := by
      split at hd
      · split at hd
        · simp at hd
        · split at hd
          · simp at hd
          · simp only [Prod.mk.injEq] at hd
            rw [← hd.2]
            simp [pageRequests, List.filterMap_append]
      · simp only [Prod.mk.injEq] at hd
        rw [← hd.2]
        simp [pageRequests, List.filterMap_append]
    split
    · simpa [pageRequests, List.filterMap_append] using h1
    · simpa [pageRequests, List.filterMap_append] using h1

theorem pageRequests_issuesLoop (config : Config) (env : Env) (issues : List Issue) :
    ∀ (m : IssueMap) (tr : List Event),
      pageRequests (issuesLoop config env issues m tr).2 = pageRequests tr := by
  induction issues with
  | nil => intro m tr; rfl
  | cons issue rest ih =>
    intro m tr
    have hm := pageRequests_mapIssue config env issue tr
    simp only [issuesLoop]
    split
    · rename_i p tr1 he
      rw [he] at hm
      exact hm
    · rename_i jp ji tr1 he
      rw [he] at hm
      rw [ih]
      exact hm

/-- The page requests of a whole run on a server that serves the given pages
and then an empty page. -/
theorem pageRequests_main (config : Config) (env : Env) (rangeLe : String → String → Bool)
    (fuel : Nat) (r : RunResult) (pages : List (List Issue))
    (hserved : PagesServed env 0 pages) (hfuel : pages.length < fuel)
    (hrun : main config env rangeLe fuel = some r) :
    pageRequests r.trace =
      (List.range (pages.length + 1)).map fun i => ("k-t-corp", i + 1, 10) := by
  have hget := getAllIssues_of_served env pages fuel hserved hfuel
  rcases main_cases config env rangeLe fuel r hrun with
    ⟨p, hg, hp⟩ | ⟨issues, tr, hg, ⟨p, hl, hp⟩ | ⟨projectIssues, tr1, hl, htr, hw⟩⟩
  · rw [hget] at hg
    simp at hg
  · rw [hget] at hg
    simp only [Option.some.injEq, Prod.mk.injEq, Except.ok.injEq] at hg
    have h1 := pageRequests_issuesLoop config env issues [] tr
    rw [hl, ← hg.2, pageRequests_pageTrace] at h1
    exact h1
  · rw [hget] at hg
    simp only [Option.some.injEq, Prod.mk.injEq, Except.ok.injEq] at hg
    have h1 := pageRequests_issuesLoop config env issues [] tr
    rw [hl, ← hg.2, pageRequests_pageTrace] at h1
    rw [htr]
    simp only [pageRequests, List.filterMap_append] at h1 ⊢
    rw [h1]
    simp

/-! ## Lemmas on runs that are aborted by a failed call -/

theorem fetchLoop_of_failed (env : Env) (pages : List (List Issue)) :
    ∀ (n : Nat) (acc : List Issue) (fuel : Nat) (e : Error), PagesFetched env n pages →
      pageAnswer env (n + pages.length) = .error e → pages.length < fuel →
      fetchLoop env fuel (n + 1) acc (pageTrace n) =
        some (.error (.err e), pageTrace (n + pages.length + 1)) := by
  induction pages with
  | nil =>
    intro n acc fuel e _ he hf
    cases fuel with
    | zero => omega
    | succ fuel =>
      have ha : env.ListGroupIssues (pageTrace n) "k-t-corp" (n + 1) 10 = .error e := he
      simp [fetchLoop, ha, pageTrace_succ]
  | cons page rest ih =>
    intro n acc fuel e hs he hf
    obtain ⟨hp, hne, hrest⟩ := hs
    cases fuel with
    | zero => omega
    | succ fuel =>
      have ha : env.ListGroupIssues (pageTrace n) "k-t-corp" (n + 1) 10 = .ok page := hp
      have hlen : ¬ page.length = 0 := fun h => hne (List.length_eq_zero.mp h)
      have hf2 : rest.length < fuel := by simp at hf; omega
      have he2 : pageAnswer env (n + 1 + rest.length) = .error e := by
        have : n + 1 + rest.length = n + (page :: rest).length := by simp; omega
        rw [this]
        exact he
      simp only [fetchLoop, ha, if_neg hlen, ← pageTrace_succ]
      rw [ih (n + 1) _ fuel e hrest he2 hf2]
      simp only [List.length_cons]
      have : n + 1 + rest.length + 1 = n + (rest.length + 1) + 1 := by omega
      rw [this]

theorem getAllIssues_of_failed (env : Env) (pages : List (List Issue)) (fuel : Nat) (e : Error)
    (hs : PagesFetched env 0 pages) (he : pageAnswer env pages.length = .error e)
    (hf : pages.length < fuel) :
    getAllIssues env fuel = some (.error (.err e), pageTrace (pages.length + 1)) := by
  have he0 : pageAnswer env (0 + pages.length) = .error e := by rw [Nat.zero_add]; exact he
  have h := fetchLoop_of_failed env pages 0 [] fuel e hs he0 hf
  have h0 : pageTrace 0 = [] := rfl
  simp only [h0, Nat.zero_add] at h
  simp only [getAllIssues, h]

theorem issuesLoop_append (config : Config) (env : Env) (before rest : List Issue) :
    ∀ (m : IssueMap) (tr : List Event),
      issuesLoop config env (before ++ rest) m tr =
        match issuesLoop config env before m tr with
        | (.error p, tr1) => (.error p, tr1)
        | (.ok m1, tr1) => issuesLoop config env rest m1 tr1 := by
  induction before with
  | nil => intro m tr; simp [issuesLoop]
  | cons issue more ih =>
    intro m tr
    simp only [List.cons_append, issuesLoop]
    split
    · rfl
    · exact ih _ _

/-- A run whose fetch ends, ends. -/
theorem main_ends (config : Config) (env : Env) (rangeLe : String → String → Bool)
    (fuel : Nat) (res : Except PanicValue (List Issue)) (tr : List Event)
    (h : getAllIssues env fuel = some (res, tr)) :
    ∃ r, main config env rangeLe fuel = some r := by
  simp only [main, h]
  cases res with
  | error p => exact ⟨_, rfl⟩
  | ok issues =>
    simp only
    split
    · exact ⟨_, rfl⟩
    · split
      · exact ⟨_, rfl⟩
      · exact ⟨_, rfl⟩

/-! ## The claims -/

/-- C1, as stated, fails: the label `legacy` is a key of the label map and is
mapped to the empty string, the repository path `k-t-corp/web` is a key of the
repository map, and the issue is filed under the repository's project `WEB`
after a repository lookup, not under the value of the label. -/
theorem C1_counterexample :
    firstMappedLabel exampleConfig (exampleIssue 1 ["legacy"] "opened") = some "legacy" ∧
    exampleConfig.GitlabLabelToJiraProject "legacy" = some "" ∧
    exampleEnv.GetProject [Event.Println "Examining \x27Title\x27"] 7
      = .ok ⟨"k-t-corp/web"⟩ ∧
    exampleConfig.GitlabRepoToJiraProject "k-t-corp/web" = some "WEB" ∧
    mapIssue exampleConfig exampleEnv (exampleIssue 1 ["legacy"] "opened") [] =
      (.ok ("WEB",
        { IssueType := "Story"
          Status := "To Do"
          Summary := "Title"
          Description := "Text"
          Labels := []
          Comments := [⟨"first"⟩, ⟨"second"⟩,
            ⟨"Imported from https://gitlab.example/k-t-corp/web/-/issues/1"⟩] }),
       [Event.Println "Examining \x27Title\x27", Event.GetProject 7,
        Event.ListIssueDiscussions 7 1]) ∧
    "WEB" ≠ "" := by
  refine ⟨rfl, rfl, rfl, rfl, rfl, by decide⟩

/-- C1, amended: when the first label of the issue that is a key of the label
map is mapped to a non-empty value, the project of the issue is that value,
whatever the repository map holds; no repository lookup is made (the trace is
unchanged), and an issue that is mapped is filed under that value. -/
theorem C1_label_mapping_wins (config : Config) (env : Env) (issue : Issue)
    (tr : List Event) (l v : String)
    (hfirst : firstMappedLabel config issue = some l)
    (hv : config.GitlabLabelToJiraProject l = some v) (hne : v ≠ "") :
    determineProject config env issue tr = (.ok v, tr) ∧
    ∀ jp ji tr2, mapIssue config env issue tr = (.ok (jp, ji), tr2) → jp = v := by
  refine ⟨determineProject_of_label config env issue tr l v hfirst hv hne, ?_⟩
  intro jp ji tr2 h
  obtain ⟨tr1, discussions, hd, -, -, -⟩ := mapIssue_ok h
  rw [determineProject_of_label config env issue _ l v hfirst hv hne] at hd
  simp only [Prod.mk.injEq, Except.ok.injEq] at hd
  exact hd.1.symm

/-- Witness of C1, amended: labels `bug`, `eng-project`, `web-project` on an
issue whose repository is mapped to `WEB`; the first mapped label gives `ENG`
and no event is added to the trace. -/
theorem C1_label_mapping_wins_witness :
    determineProject exampleConfig exampleEnv
        (exampleIssue 1 ["bug", "eng-project", "web-project"] "opened") [] = (.ok "ENG", []) ∧
    ∀ jp ji tr2,
      mapIssue exampleConfig exampleEnv
        (exampleIssue 1 ["bug", "eng-project", "web-project"] "opened") [] = (.ok (jp, ji), tr2) →
      jp = "ENG" :=
  C1_label_mapping_wins exampleConfig exampleEnv
    (exampleIssue 1 ["bug", "eng-project", "web-project"] "opened") [] "eng-project" "ENG"
    rfl rfl (by decide)

/-- C2: when the fetch ends and one of the fetched issues has no label that is
a key of the label map while every path the server reports for its repository
is not a key of the repository map, the run ends aborted and nothing is ever
written to `export.json`; if moreover every remote call of the run succeeded,
the panic is the unassignable-issue one of line 109. -/
theorem C2_unassignable_issue_is_fatal (config : Config) (env : Env)
    (rangeLe : String → String → Bool) (fuel : Nat) (issues : List Issue) (tr : List Event)
    (issue : Issue)
    (hfetch : getAllIssues env fuel = some (.ok issues, tr)) (hmem : issue ∈ issues)
    (hlabels : ∀ l ∈ issue.Labels, config.GitlabLabelToJiraProject l = none)
    (hrepo : ∀ tr1 gp, env.GetProject tr1 issue.ProjectID = .ok gp →
      config.GitlabRepoToJiraProject gp.PathWithNamespace = none) :
    ∃ r, main config env rangeLe fuel = some r ∧
      r.panic ≠ none ∧
      exportsWritten r.trace = [] ∧
      (remoteCallsSucceed env r.trace = true → r.panic = some unassignable) := by
  obtain ⟨pages, -, -, -, htr⟩ := getAllIssues_ok_served env fuel issues tr hfetch
  obtain ⟨p, tr2, hloop, hp⟩ :=
    issuesLoop_unassignable config env issue hlabels hrepo issues hmem [] tr
  have hexp : exportsWritten tr2 = [] := by
    have h := exportsWritten_issuesLoop config env issues [] tr
    rw [hloop, htr, exportsWritten_pageTrace] at h
    exact h
  refine ⟨⟨tr2, some p⟩, ?_, by simp, hexp, ?_⟩
  · simp only [main, hfetch, hloop]
  · intro hok
    rcases hp with hp | hp
    · rw [hp]
    · rw [not_succeed_of_lastCallFailed env tr2 hp] at hok
      exact absurd hok (by decide)

/-- Witness of C2: the page `[issueX, issueC]`, where `issueX` belongs to the
unmapped project 8 and has no mapped label. -/
theorem C2_unassignable_issue_is_fatal_witness :
    main exampleConfig (pagedEnv [[issueX, issueC]]) (fun _ _ => true) 2 =
      some
        { trace :=
            [Event.ListGroupIssues "k-t-corp" 1 10, Event.ListGroupIssues "k-t-corp" 2 10,
             Event.Println "Examining \x27C\x27", Event.ListIssueDiscussions 7 3,
             Event.Println "Examining \x27X\x27", Event.GetProject 8]
          panic := some unassignable } ∧
    ∃ r, main exampleConfig (pagedEnv [[issueX, issueC]]) (fun _ _ => true) 2 = some r ∧
      r.panic ≠ none ∧
      exportsWritten r.trace = [] ∧
      (remoteCallsSucceed (pagedEnv [[issueX, issueC]]) r.trace = true →
        r.panic = some unassignable) :=
  ⟨rfl,
   C2_unassignable_issue_is_fatal exampleConfig (pagedEnv [[issueX, issueC]]) (fun _ _ => true) 2
    [issueC, issueX] (pageTrace 2) issueX rfl (by decide)
    (by
      intro l hl
      have h : l = "bug" := by simpa [issueX, exampleIssue] using hl
      subst h
      rfl)
    (by
      intro tr1 gp hg
      have h : gp = ⟨"k-t-corp/other"⟩ := by
        have h1 : (Except.ok ⟨"k-t-corp/other"⟩ : Except Error Project) = .ok gp := hg
        cases h1
        rfl
      subst h
      rfl)⟩

/-- C3: the status of a mapped issue is `Done` exactly when the state of the
source issue is `closed` and no label is `status:wont-fix`; in every other
case it is `To Do`. -/
theorem C3_issue_status (config : Config) (env : Env) (issue : Issue)
    (tr tr2 : List Event) (jp : String) (ji : JiraIssue)
    (h : mapIssue config env issue tr = (.ok (jp, ji), tr2)) :
    (ji.Status = "Done" ↔ issue.State = "closed" ∧ "status:wont-fix" ∉ issue.Labels) ∧
    (¬ (issue.State = "closed" ∧ "status:wont-fix" ∉ issue.Labels) → ji.Status = "To Do") ∧
    (issue.State = "closed" → "status:wont-fix" ∈ issue.Labels → ji.Status = "To Do") ∧
    (issue.State ≠ "closed" → ji.Status = "To Do") := by
  obtain ⟨tr1, discussions, -, -, -, hji⟩ := mapIssue_ok h
  have hs : ji.Status =
      if issue.State = "closed" ∧ "status:wont-fix" ∉ issue.Labels then "Done" else "To Do" := by
    rw [hji]
    exact determineIssueStatus_eq issue
  have hdt : ¬ ("To Do" = "Done") := by decide
  by_cases hc : issue.State = "closed" ∧ "status:wont-fix" ∉ issue.Labels
  · rw [if_pos hc] at hs
    refine ⟨⟨fun _ => hc, fun _ => hs⟩, fun hn => absurd hc hn,
      fun _ hw => absurd hw hc.2, fun hn => absurd hc.1 hn⟩
  · rw [if_neg hc] at hs
    refine ⟨⟨fun hd => absurd (hs.symm.trans hd) hdt, fun hc1 => absurd hc1 hc⟩,
      fun _ => hs, fun _ _ => hs, fun _ => hs⟩

/-- Witness of C3: a closed issue labelled `status:wont-fix`. -/
theorem C3_issue_status_witness :
    (("To Do" : String) = "Done" ↔
      (exampleIssue 1 ["web-project", "status:wont-fix"] "closed").State = "closed" ∧
      "status:wont-fix" ∉ (exampleIssue 1 ["web-project", "status:wont-fix"] "closed").Labels) ∧
    (¬ ((exampleIssue 1 ["web-project", "status:wont-fix"] "closed").State = "closed" ∧
      "status:wont-fix" ∉ (exampleIssue 1 ["web-project", "status:wont-fix"] "closed").Labels) →
      ("To Do" : String) = "To Do") ∧
    ((exampleIssue 1 ["web-project", "status:wont-fix"] "closed").State = "closed" →
      "status:wont-fix" ∈ (exampleIssue 1 ["web-project", "status:wont-fix"] "closed").Labels →
      ("To Do" : String) = "To Do") ∧
    ((exampleIssue 1 ["web-project", "status:wont-fix"] "closed").State ≠ "closed" →
      ("To Do" : String) = "To Do") :=
  C3_issue_status exampleConfig exampleEnv
    (exampleIssue 1 ["web-project", "status:wont-fix"] "closed") []
    [Event.Println "Examining \x27Title\x27", Event.ListIssueDiscussions 7 1] "WEB"
    { IssueType := "Story"
      Status := "To Do"
      Summary := "Title"
      Description := "Text"
      Labels := []
      Comments := [⟨"first"⟩, ⟨"second"⟩,
        ⟨"Imported from https://gitlab.example/k-t-corp/web/-/issues/1"⟩] }
    rfl

/-- C4: a mapped issue whose project is `ENG` has issue type `Epic`, whatever
its labels (the label `bug` included) and however the project was resolved. -/
theorem C4_epic_override (config : Config) (env : Env) (issue : Issue)
    (tr tr2 : List Event) (jp : String) (ji : JiraIssue)
    (h : mapIssue config env issue tr = (.ok (jp, ji), tr2)) (heng : jp = "ENG") :
    ji.IssueType = "Epic" := by
  obtain ⟨tr1, discussions, -, -, -, hji⟩ := mapIssue_ok h
  rw [hji]
  simp [determineIssueType, heng]

/-- Witness of C4: an issue labelled `bug` and `eng-project`. -/
theorem C4_epic_override_witness :
    (JiraIssue.mk "Epic" "Done" "Title" "Text" ["cost"]
      [⟨"first"⟩, ⟨"second"⟩,
        ⟨"Imported from https://gitlab.example/k-t-corp/web/-/issues/1"⟩]).IssueType = "Epic" :=
  C4_epic_override exampleConfig exampleEnv
    (exampleIssue 2 ["bug", "eng-project", "cost"] "closed") []
    [Event.Println "Examining \x27Title\x27", Event.ListIssueDiscussions 7 2] "ENG"
    (JiraIssue.mk "Epic" "Done" "Title" "Text" ["cost"]
      [⟨"first"⟩, ⟨"second"⟩,
        ⟨"Imported from https://gitlab.example/k-t-corp/web/-/issues/1"⟩])
    rfl rfl

/-- C5: a mapped issue whose project is not `ENG` has issue type `Bug` exactly
when one of its labels is the string `bug`, and `Story` otherwise; the issue
type of every mapped issue is one of `Epic`, `Bug`, `Story`. -/
theorem C5_bug_story_rule (config : Config) (env : Env) (issue : Issue)
    (tr tr2 : List Event) (jp : String) (ji : JiraIssue)
    (h : mapIssue config env issue tr = (.ok (jp, ji), tr2)) :
    (jp ≠ "ENG" →
      (ji.IssueType = "Bug" ↔ "bug" ∈ issue.Labels) ∧
      ("bug" ∉ issue.Labels → ji.IssueType = "Story")) ∧
    (ji.IssueType = "Epic" ∨ ji.IssueType = "Bug" ∨ ji.IssueType = "Story") := by
  obtain ⟨tr1, discussions, -, -, -, hji⟩ := mapIssue_ok h
  have ht : ji.IssueType = determineIssueType jp issue := by rw [hji]
  have hsb : ¬ ("Story" = "Bug") := by decide
  by_cases heng : jp = "ENG"
  · refine ⟨fun hn => absurd heng hn, Or.inl ?_⟩
    rw [ht]
    simp [determineIssueType, heng]
  · have ht2 : ji.IssueType = if "bug" ∈ issue.Labels then "Bug" else "Story" := by
      rw [ht]
      simp only [determineIssueType, if_neg heng, bugLoop_eq]
    by_cases hb : "bug" ∈ issue.Labels
    · rw [if_pos hb] at ht2
      exact ⟨fun _ => ⟨⟨fun _ => hb, fun _ => ht2⟩, fun hn => absurd hb hn⟩, Or.inr (Or.inl ht2)⟩
    · rw [if_neg hb] at ht2
      exact ⟨fun _ => ⟨⟨fun hB => absurd (ht2.symm.trans hB) hsb, fun hb1 => absurd hb1 hb⟩,
        fun _ => ht2⟩, Or.inr (Or.inr ht2)⟩

/-- Witness of C5: an issue labelled `bug`, filed under `WEB` through its
repository. -/
theorem C5_bug_story_rule_witness :
    ("WEB" ≠ "ENG" →
      ((JiraIssue.mk "Bug" "Done" "Title" "Text" ["cost", "infra"]
        [⟨"first"⟩, ⟨"second"⟩,
          ⟨"Imported from https://gitlab.example/k-t-corp/web/-/issues/1"⟩]).IssueType = "Bug" ↔
        "bug" ∈ (exampleIssue 3 ["bug", "cost", "topic::infra", "other"] "closed").Labels) ∧
      ("bug" ∉ (exampleIssue 3 ["bug", "cost", "topic::infra", "other"] "closed").Labels →
        (JiraIssue.mk "Bug" "Done" "Title" "Text" ["cost", "infra"]
          [⟨"first"⟩, ⟨"second"⟩,
            ⟨"Imported from https://gitlab.example/k-t-corp/web/-/issues/1"⟩]).IssueType
          = "Story")) ∧
    ((JiraIssue.mk "Bug" "Done" "Title" "Text" ["cost", "infra"]
        [⟨"first"⟩, ⟨"second"⟩,
          ⟨"Imported from https://gitlab.example/k-t-corp/web/-/issues/1"⟩]).IssueType = "Epic" ∨
      (JiraIssue.mk "Bug" "Done" "Title" "Text" ["cost", "infra"]
        [⟨"first"⟩, ⟨"second"⟩,
          ⟨"Imported from https://gitlab.example/k-t-corp/web/-/issues/1"⟩]).IssueType = "Bug" ∨
      (JiraIssue.mk "Bug" "Done" "Title" "Text" ["cost", "infra"]
        [⟨"first"⟩, ⟨"second"⟩,
          ⟨"Imported from https://gitlab.example/k-t-corp/web/-/issues/1"⟩]).IssueType
        = "Story") :=
  C5_bug_story_rule exampleConfig exampleEnv
    (exampleIssue 3 ["bug", "cost", "topic::infra", "other"] "closed") []
    [Event.Println "Examining \x27Title\x27", Event.GetProject 7,
      Event.ListIssueDiscussions 7 3] "WEB"
    (JiraIssue.mk "Bug" "Done" "Title" "Text" ["cost", "infra"]
      [⟨"first"⟩, ⟨"second"⟩,
        ⟨"Imported from https://gitlab.example/k-t-corp/web/-/issues/1"⟩])
    rfl

/-- C6: the labels of a mapped issue are the projection of the source labels
in the words of the specification (scan in order; keep `cost` and `monetize`;
keep the remainder of a label starting with `topic::`; drop the rest), whatever
the project; a label starts with `topic::` exactly when it is `topic::`
followed by a remainder, and that remainder, possibly empty, is what is kept;
the labels `bug`, `cost`, `topic::infra`, `other` give `cost`, `infra`. -/
theorem C6_label_projection :
    (∀ issue : Issue, determineLabels issue = projectLabels issue.Labels) ∧
    (∀ (config : Config) (env : Env) (issue : Issue) (tr tr2 : List Event) (jp : String)
      (ji : JiraIssue), mapIssue config env issue tr = (.ok (jp, ji), tr2) →
      ji.Labels = projectLabels issue.Labels) ∧
    (∀ rest : String, projectLabel ("topic::" ++ rest) = some rest) ∧
    (∀ l : String, l ≠ "cost" → l ≠ "monetize" → (¬ ∃ rest, l = "topic::" ++ rest) →
      projectLabel l = none) ∧
    projectLabel "cost" = some "cost" ∧ projectLabel "monetize" = some "monetize" ∧
    projectLabels ["bug", "cost", "topic::infra", "other"] = ["cost", "infra"] := by
  have hlab : ∀ issue : Issue, determineLabels issue = projectLabels issue.Labels := by
    intro issue
    simp [determineLabels, extraLabelsLoop_eq]
  refine ⟨hlab, ?_, ?_, ?_, by decide, by decide, by decide⟩
  · intro config env issue tr tr2 jp ji h
    obtain ⟨tr1, discussions, -, -, -, hji⟩ := mapIssue_ok h
    rw [hji]
    exact hlab issue
  · intro rest
    have h1 : ¬ ("topic::" ++ rest = "cost" ∨ "topic::" ++ rest = "monetize") := by
      intro h
      rcases h with h | h
      · have := congrArg (fun s : String => s.data.take 1) h
        simp at this
      · have := congrArg (fun s : String => s.data.take 1) h
        simp at this
    have h2 : "topic::".data <+: ("topic::" ++ rest).data := by
      rw [String.data_append]
      exact List.prefix_append _ _
    have h3 : ("topic::" ++ rest).drop 7 = rest := by
      rw [String.drop_eq]
      apply String.ext
      simp
    simp only [projectLabel, if_neg h1, if_pos h2, h3]
  · intro l hc hm hno
    have h1 : ¬ (l = "cost" ∨ l = "monetize") := fun h => h.elim hc hm
    have h2 : ¬ ("topic::".data <+: l.data) := by
      rintro ⟨t, ht⟩
      apply hno
      refine ⟨⟨t⟩, ?_⟩
      apply String.ext
      rw [String.data_append, ← ht]
    simp only [projectLabel, if_neg h1, if_neg h2]

/-- Witness of C6: the issue labelled `bug`, `cost`, `topic::infra`, `other`,
filed under `WEB`, gets the labels `cost`, `infra`. -/
theorem C6_label_projection_witness :
    determineLabels (exampleIssue 3 ["bug", "cost", "topic::infra", "other"] "closed")
      = ["cost", "infra"] ∧
    (JiraIssue.mk "Bug" "Done" "Title" "Text" ["cost", "infra"]
      [⟨"first"⟩, ⟨"second"⟩,
        ⟨"Imported from https://gitlab.example/k-t-corp/web/-/issues/1"⟩]).Labels =
      projectLabels (exampleIssue 3 ["bug", "cost", "topic::infra", "other"] "closed").Labels :=
  ⟨by decide,
   C6_label_projection.2.1 exampleConfig exampleEnv
    (exampleIssue 3 ["bug", "cost", "topic::infra", "other"] "closed") []
    [Event.Println "Examining \x27Title\x27", Event.GetProject 7,
      Event.ListIssueDiscussions 7 3] "WEB"
    (JiraIssue.mk "Bug" "Done" "Title" "Text" ["cost", "infra"]
      [⟨"first"⟩, ⟨"second"⟩,
        ⟨"Imported from https://gitlab.example/k-t-corp/web/-/issues/1"⟩])
    rfl⟩

/-- C7: the comment list of a mapped issue is non-empty and its last element
has the body `Imported from ` followed by the web URL of the issue, whatever
discussions the server returned; this holds of the comments built from any
list of discussions, the empty list and lists of system notes included. -/
theorem C7_comment_trailer (config : Config) (env : Env) (issue : Issue)
    (tr tr2 : List Event) (jp : String) (ji : JiraIssue)
    (h : mapIssue config env issue tr = (.ok (jp, ji), tr2)) :
    ji.Comments ≠ [] ∧
    ji.Comments.getLast? = some { Body := "Imported from " ++ issue.WebURL } ∧
    ∀ discussions : List Discussion,
      constructComments discussions issue ≠ [] ∧
      (constructComments discussions issue).getLast? =
        some { Body := "Imported from " ++ issue.WebURL } := by
  have hall : ∀ discussions : List Discussion,
      constructComments discussions issue ≠ [] ∧
      (constructComments discussions issue).getLast? =
        some { Body := "Imported from " ++ issue.WebURL } := by
    intro discussions
    rw [constructComments_eq]
    exact ⟨by simp, by simp⟩
  obtain ⟨tr1, discussions, -, -, -, hji⟩ := mapIssue_ok h
  have hc : ji.Comments = constructComments discussions issue := by rw [hji]
  rw [hc]
  exact ⟨(hall discussions).1, (hall discussions).2, hall⟩

/-- Witness of C7: an issue with two user notes and one system note. -/
theorem C7_comment_trailer_witness :
    (JiraIssue.mk "Epic" "Done" "Title" "Text" ["cost"]
      [⟨"first"⟩, ⟨"second"⟩,
        ⟨"Imported from https://gitlab.example/k-t-corp/web/-/issues/1"⟩]).Comments ≠ [] ∧
    (JiraIssue.mk "Epic" "Done" "Title" "Text" ["cost"]
      [⟨"first"⟩, ⟨"second"⟩,
        ⟨"Imported from https://gitlab.example/k-t-corp/web/-/issues/1"⟩]).Comments.getLast? =
      some { Body := "Imported from " ++
        (exampleIssue 2 ["bug", "eng-project", "cost"] "closed").WebURL } ∧
    ∀ discussions : List Discussion,
      constructComments discussions (exampleIssue 2 ["bug", "eng-project", "cost"] "closed")
        ≠ [] ∧
      (constructComments discussions
        (exampleIssue 2 ["bug", "eng-project", "cost"] "closed")).getLast? =
        some { Body := "Imported from " ++
          (exampleIssue 2 ["bug", "eng-project", "cost"] "closed").WebURL } :=
  C7_comment_trailer exampleConfig exampleEnv
    (exampleIssue 2 ["bug", "eng-project", "cost"] "closed") []
    [Event.Println "Examining \x27Title\x27", Event.ListIssueDiscussions 7 2] "ENG"
    (JiraIssue.mk "Epic" "Done" "Title" "Text" ["cost"]
      [⟨"first"⟩, ⟨"second"⟩,
        ⟨"Imported from https://gitlab.example/k-t-corp/web/-/issues/1"⟩])
    rfl

/-- C8: the comment list of a mapped issue, its last element removed, is the
list of the bodies of the notes that are not system notes among the
discussions the server returned for the issue (the last request of the
mapping), thread by thread and in note order within a thread. -/
theorem C8_comment_bodies (config : Config) (env : Env) (issue : Issue)
    (tr tr2 : List Event) (jp : String) (ji : JiraIssue)
    (h : mapIssue config env issue tr = (.ok (jp, ji), tr2)) :
    ∃ (tr1 : List Event) (discussions : List Discussion),
      tr2 = tr1 ++ [Event.ListIssueDiscussions issue.ProjectID issue.IID] ∧
      env.ListIssueDiscussions tr1 issue.ProjectID issue.IID = .ok discussions ∧
      ji.Comments.dropLast = userNoteBodies discussions := by
  obtain ⟨tr1, discussions, -, hl, htr, hji⟩ := mapIssue_ok h
  refine ⟨tr1, discussions, htr, hl, ?_⟩
  rw [hji]
  simp [constructComments_eq]

/-- Witness of C8: the discussions `[first, closed (system)]`, `[second]`
give the comments `first`, `second` before the trailer. -/
theorem C8_comment_bodies_witness :
    userNoteBodies [⟨[⟨"first", false⟩, ⟨"closed", true⟩]⟩, ⟨[⟨"second", false⟩]⟩]
      = [⟨"first"⟩, ⟨"second"⟩] ∧
    ∃ (tr1 : List Event) (discussions : List Discussion),
      [Event.Println "Examining \x27Title\x27", Event.ListIssueDiscussions 7 2] =
        tr1 ++ [Event.ListIssueDiscussions
          (exampleIssue 2 ["bug", "eng-project", "cost"] "closed").ProjectID
          (exampleIssue 2 ["bug", "eng-project", "cost"] "closed").IID] ∧
      exampleEnv.ListIssueDiscussions tr1
        (exampleIssue 2 ["bug", "eng-project", "cost"] "closed").ProjectID
        (exampleIssue 2 ["bug", "eng-project", "cost"] "closed").IID = .ok discussions ∧
      (JiraIssue.mk "Epic" "Done" "Title" "Text" ["cost"]
        [⟨"first"⟩, ⟨"second"⟩,
          ⟨"Imported from https://gitlab.example/k-t-corp/web/-/issues/1"⟩]).Comments.dropLast =
        userNoteBodies discussions :=
  ⟨by decide,
   C8_comment_bodies exampleConfig exampleEnv
    (exampleIssue 2 ["bug", "eng-project", "cost"] "closed") []
    [Event.Println "Examining \x27Title\x27", Event.ListIssueDiscussions 7 2] "ENG"
    (JiraIssue.mk "Epic" "Done" "Title" "Text" ["cost"]
      [⟨"first"⟩, ⟨"second"⟩,
        ⟨"Imported from https://gitlab.example/k-t-corp/web/-/issues/1"⟩])
    rfl⟩

/-- C9: in a run that ends without panic, the server served some pages and
then an empty page, every issue of the reversed concatenation of the pages was
mapped, position by position, to a project key and a Jira issue, one export
document was written, and the issue list of each of its projects is the list
of the Jira issues mapped to that project key, in that reversed order. -/
theorem C9_bucket_ordering (config : Config) (env : Env) (rangeLe : String → String → Bool)
    (fuel : Nat) (r : RunResult)
    (hrun : main config env rangeLe fuel = some r) (hok : r.panic = none) :
    ∃ (pages : List (List Issue)) (mapped : List (String × JiraIssue)) (exportDoc : JiraExport),
      PagesServed env 0 pages ∧
      List.Forall₂ (MappedFrom config env) pages.flatten.reverse mapped ∧
      exportsWritten r.trace = [exportDoc] ∧
      ∀ p ∈ exportDoc.Projects, p.Issues = bucketOf mapped p.Key := by
  simp only [main] at hrun
  split at hrun
  · simp at hrun
  · simp only [Option.some.injEq] at hrun
    rw [← hrun] at hok
    simp at hok
  · rename_i issues tr hfetch
    obtain ⟨pages, hserved, -, hissues, htr⟩ := getAllIssues_ok_served env fuel issues tr hfetch
    split at hrun
    · simp only [Option.some.injEq] at hrun
      rw [← hrun] at hok
      simp at hok
    · rename_i projectIssues tr1 hloop
      obtain ⟨mapped, hmapped, hb⟩ :=
        issuesLoop_ok config env issues [] [] tr projectIssues tr1 buckets_empty hloop
      have hexp : exportsWritten tr1 = [] := by
        have h := exportsWritten_issuesLoop config env issues [] tr
        rw [hloop, htr, exportsWritten_pageTrace] at h
        exact h
      have htrace : exportsWritten r.trace =
          [{ Projects := projectsLoop (rangeOrder rangeLe projectIssues) [] }] := by
        split at hrun
        · simp only [Option.some.injEq] at hrun
          rw [← hrun]
          simp [exportsWritten, List.filterMap_append] at hexp ⊢
          exact hexp
        · simp only [Option.some.injEq] at hrun
          rw [← hrun]
          simp [exportsWritten, List.filterMap_append] at hexp ⊢
          exact hexp
      refine ⟨pages, mapped, _, hserved, hissues ▸ hmapped, htrace, ?_⟩
      intro p hp
      have hmem := mem_projects rangeLe projectIssues p hp
      have hlook := mapLookup_of_mem projectIssues p.Key p.Issues hb.1 hmem
      rw [hb.2 p.Key] at hlook
      simp only [List.nil_append] at hlook
      split at hlook
      · simp at hlook
      · simp only [Option.some.injEq] at hlook
        exact hlook.symm

/-- Witness of C9: the issues fetched as `[issueC, issueB]`, `[issueA]`, all
resolved to the project `WEB`, are listed as `A`, `B`, `C`. -/
theorem C9_bucket_ordering_witness :
    main exampleConfig (pagedEnv [[issueC, issueB], [issueA]]) (fun _ _ => true) 3
      = some exampleRun ∧
    exportsWritten exampleRun.trace =
      [{ Projects := [{ Key := "WEB",
                        Issues := [exampleJira "Story" "Done" "A" [],
                                   exampleJira "Bug" "To Do" "B" [],
                                   exampleJira "Story" "To Do" "C" ["cost"]] }] }] ∧
    ∃ (pages : List (List Issue)) (mapped : List (String × JiraIssue)) (exportDoc : JiraExport),
      PagesServed (pagedEnv [[issueC, issueB], [issueA]]) 0 pages ∧
      List.Forall₂ (MappedFrom exampleConfig (pagedEnv [[issueC, issueB], [issueA]]))
        pages.flatten.reverse mapped ∧
      exportsWritten exampleRun.trace = [exportDoc] ∧
      ∀ p ∈ exportDoc.Projects, p.Issues = bucketOf mapped p.Key :=
  ⟨rfl, rfl,
   C9_bucket_ordering exampleConfig (pagedEnv [[issueC, issueB], [issueA]]) (fun _ _ => true) 3
    exampleRun rfl rfl⟩

/-- C10: when the server answers the requests for the pages `1`, ..., `k - 1`
with non-empty pages and the request for page `k` with an empty page, none of
them failing, then with fuel for `k` iterations the issues handed to the
mapping loop are the reverse of the concatenation of the pages `1`, ...,
`k - 1` in page order, so every issue of those pages occurs as often as on the
pages and nothing else occurs; the requests made are those for the pages `1`,
..., `k`. -/
theorem C10_issue_fetcher_result (env : Env) (pages : List (List Issue)) (fuel : Nat)
    (hserved : PagesServed env 0 pages) (hfuel : pages.length < fuel) :
    getAllIssues env fuel = some (.ok pages.flatten.reverse, pageTrace (pages.length + 1)) ∧
    ∀ issues tr, getAllIssues env fuel = some (.ok issues, tr) →
      issues = pages.flatten.reverse ∧ issues.Perm pages.flatten ∧
      ∀ issue, issues.count issue = pages.flatten.count issue := by
  have h := getAllIssues_of_served env pages fuel hserved hfuel
  refine ⟨h, ?_⟩
  intro issues tr h2
  rw [h] at h2
  simp only [Option.some.injEq, Prod.mk.injEq, Except.ok.injEq] at h2
  rw [← h2.1]
  exact ⟨rfl, List.reverse_perm _, fun issue => List.count_reverse _ _⟩

/-- Witness of C10: the pages `[issueC, issueB]`, `[issueA]` followed by an
empty page give `[issueA, issueB, issueC]`. -/
theorem C10_issue_fetcher_result_witness :
    getAllIssues (pagedEnv [[issueC, issueB], [issueA]]) 3 =
      some (.ok [issueA, issueB, issueC],
        [Event.ListGroupIssues "k-t-corp" 1 10, Event.ListGroupIssues "k-t-corp" 2 10,
         Event.ListGroupIssues "k-t-corp" 3 10]) ∧
    ∀ issues tr, getAllIssues (pagedEnv [[issueC, issueB], [issueA]]) 3 = some (.ok issues, tr) →
      issues = [[issueC, issueB], [issueA]].flatten.reverse ∧
      issues.Perm [[issueC, issueB], [issueA]].flatten ∧
      ∀ issue, issues.count issue = [[issueC, issueB], [issueA]].flatten.count issue :=
  C10_issue_fetcher_result (pagedEnv [[issueC, issueB], [issueA]]) [[issueC, issueB], [issueA]] 3
    ⟨rfl, List.cons_ne_nil _ _, rfl, List.cons_ne_nil _ _, rfl⟩ (by decide)


/-- C11: a run that ends either ended with a panic, or wrote one export in
which every issue of the reversed concatenation of the fetched pages, mapped
position by position, is listed under the project with its resolved key, no
other project has that key, the issue list of every project holds exactly the
issues mapped to its key, and every project key is a non-empty string. -/
theorem C11_nonempty_project_key (config : Config) (env : Env)
    (rangeLe : String → String → Bool) (fuel : Nat) (r : RunResult)
    (hrun : main config env rangeLe fuel = some r) :
    r.panic ≠ none ∨
    ∃ (pages : List (List Issue)) (mapped : List (String × JiraIssue)) (exportDoc : JiraExport),
      PagesServed env 0 pages ∧
      List.Forall₂ (MappedFrom config env) pages.flatten.reverse mapped ∧
      exportsWritten r.trace = [exportDoc] ∧
      (∀ m ∈ mapped, ∃ p ∈ exportDoc.Projects,
        p.Key = m.1 ∧ m.2 ∈ p.Issues ∧ ∀ q ∈ exportDoc.Projects, q.Key = m.1 → q = p) ∧
      (∀ p ∈ exportDoc.Projects, p.Issues = bucketOf mapped p.Key) ∧
      (∀ p ∈ exportDoc.Projects, p.Key ≠ "") := by
  by_cases hp : r.panic = none
  · right
    obtain ⟨pages, mapped, projectIssues, hserved, -, hmapped, hb, -, hexp, -⟩ :=
      main_export config env rangeLe fuel r hrun (Or.inl hp)
    obtain ⟨h1, h2⟩ := projects_of_buckets rangeLe projectIssues mapped hb
    have hnodup := projects_keys_nodup rangeLe projectIssues hb.1
    refine ⟨pages, mapped, _, hserved, hmapped, hexp, ?_, fun p hp1 => (h1 p hp1).1, ?_⟩
    · intro m hm
      obtain ⟨p, hp1, hk, hin⟩ := h2 m.1 m.2 hm
      refine ⟨p, hp1, hk, hin, ?_⟩
      intro q hq hqk
      exact List.inj_on_of_nodup_map hnodup hq hp1 (hqk.trans hk.symm)
    · intro p hp1
      obtain ⟨ji, hji⟩ := bucketOf_ne_nil mapped p.Key ((h1 p hp1).1 ▸ (h1 p hp1).2)
      obtain ⟨issue, -, hfrom⟩ := forall₂_exists_left _ _ _ hmapped (p.Key, ji) hji
      exact mappedFrom_key_ne_empty config env issue (p.Key, ji) hfrom
  · exact Or.inl hp

/-- Witness of C11: the run on the pages `[issueB, issueE]`, `[issueA]`, which
files `A` and `B` under `WEB` and `E` under `ENG`. -/
theorem C11_nonempty_project_key_witness :
    main exampleConfig (pagedEnv [[issueB, issueE], [issueA]]) (fun _ _ => true) 3
      = some exampleRunTwo ∧
    (exampleRunTwo.panic ≠ none ∨
    ∃ (pages : List (List Issue)) (mapped : List (String × JiraIssue)) (exportDoc : JiraExport),
      PagesServed (pagedEnv [[issueB, issueE], [issueA]]) 0 pages ∧
      List.Forall₂ (MappedFrom exampleConfig (pagedEnv [[issueB, issueE], [issueA]]))
        pages.flatten.reverse mapped ∧
      exportsWritten exampleRunTwo.trace = [exportDoc] ∧
      (∀ m ∈ mapped, ∃ p ∈ exportDoc.Projects,
        p.Key = m.1 ∧ m.2 ∈ p.Issues ∧ ∀ q ∈ exportDoc.Projects, q.Key = m.1 → q = p) ∧
      (∀ p ∈ exportDoc.Projects, p.Issues = bucketOf mapped p.Key) ∧
      (∀ p ∈ exportDoc.Projects, p.Key ≠ "")) :=
  ⟨rfl,
   C11_nonempty_project_key exampleConfig (pagedEnv [[issueB, issueE], [issueA]])
    (fun _ _ => true) 3 exampleRunTwo rfl⟩

/-- C12: a failed remote call aborts the run, and the run does end.  (1) When
the pages before page `k` were fetched and the request for page `k` fails,
the run, given fuel for `k` iterations, ends right after that request with its
error as panic value.  (2) When the fetch ended, the issues before issue `N`
were mapped and the iteration for issue `N` fails, the run ends with the
events and the panic value of that iteration.  (3) An iteration whose
repository lookup or whose discussion request fails ends with the error of
that call as panic value.  In (1) and (2) nothing is written to
`export.json`.  (4) Every run whose fetch ends, ends.  (5) In every run that
ends, a remote call that failed is the last event, its error is the panic
value and nothing was written, however many issues were mapped before; an
export was written only if every remote call succeeded and every fetched
issue was mapped. -/
theorem C12_fail_fast (config : Config) (env : Env) (rangeLe : String → String → Bool) :
    (∀ (pages : List (List Issue)) (e : Error) (fuel : Nat),
      PagesFetched env 0 pages → pageAnswer env pages.length = .error e →
      pages.length < fuel →
      main config env rangeLe fuel =
        some { trace := pageTrace (pages.length + 1), panic := some (.err e) } ∧
      exportsWritten (pageTrace (pages.length + 1)) = []) ∧
    (∀ (pages : List (List Issue)) (fuel : Nat) (before after : List Issue) (issue : Issue)
      (m1 : IssueMap) (tr1 tr2 : List Event) (p : PanicValue),
      PagesServed env 0 pages → pages.length < fuel →
      pages.flatten.reverse = before ++ issue :: after →
      issuesLoop config env before [] (pageTrace (pages.length + 1)) = (.ok m1, tr1) →
      mapIssue config env issue tr1 = (.error p, tr2) →
      main config env rangeLe fuel = some { trace := tr2, panic := some p } ∧
      exportsWritten tr2 = []) ∧
    (∀ (issue : Issue) (tr : List Event) (e : Error),
      labelScan config issue = "" →
      env.GetProject (tr ++ [Event.Println ("Examining \x27" ++ issue.Title ++ "\x27")])
        issue.ProjectID = .error e →
      mapIssue config env issue tr =
        (.error (.err e),
         tr ++ [Event.Println ("Examining \x27" ++ issue.Title ++ "\x27")]
           ++ [Event.GetProject issue.ProjectID])) ∧
    (∀ (issue : Issue) (tr tr1 : List Event) (jp : String) (e : Error),
      determineProject config env issue
        (tr ++ [Event.Println ("Examining \x27" ++ issue.Title ++ "\x27")]) = (.ok jp, tr1) →
      env.ListIssueDiscussions tr1 issue.ProjectID issue.IID = .error e →
      mapIssue config env issue tr =
        (.error (.err e), tr1 ++ [Event.ListIssueDiscussions issue.ProjectID issue.IID])) ∧
    (∀ (pages : List (List Issue)) (fuel : Nat),
      PagesServed env 0 pages → pages.length < fuel →
      ∃ r, main config env rangeLe fuel = some r) ∧
    (∀ (fuel : Nat) (r : RunResult), main config env rangeLe fuel = some r →
      (∀ tr1 ev, (tr1 ++ [ev]) <+: r.trace → answerOk env tr1 ev = false →
        r.trace = tr1 ++ [ev] ∧
        (∃ e, answerError env tr1 ev = some e ∧ r.panic = some (.err e)) ∧
        exportsWritten r.trace = []) ∧
      (exportsWritten r.trace ≠ [] →
        remoteCallsSucceed env r.trace = true ∧
        ∃ (pages : List (List Issue)) (mapped : List (String × JiraIssue)),
          PagesServed env 0 pages ∧
          List.Forall₂ (MappedFrom config env) pages.flatten.reverse mapped)) := by
  refine ⟨?_, ?_, ?_, ?_, ?_, ?_⟩
  · intro pages e fuel hs he hf
    have hget := getAllIssues_of_failed env pages fuel e hs he hf
    refine ⟨?_, exportsWritten_pageTrace _⟩
    simp only [main, hget]
  · intro pages fuel before after issue m1 tr1 tr2 p hs hf hsplit hbefore hfail
    have hget := getAllIssues_of_served env pages fuel hs hf
    have hloop : issuesLoop config env (pages.flatten.reverse) []
        (pageTrace (pages.length + 1)) = (.error p, tr2) := by
      rw [hsplit, issuesLoop_append, hbefore]
      simp only [issuesLoop, hfail]
    refine ⟨?_, ?_⟩
    · simp only [main, hget, hloop]
    · have h := exportsWritten_issuesLoop config env pages.flatten.reverse []
        (pageTrace (pages.length + 1))
      rw [hloop, exportsWritten_pageTrace] at h
      exact h
  · intro issue tr e hscan hg
    have hs : labelProjectLoop config.GitlabLabelToJiraProject issue.Labels "" = "" := hscan
    simp only [mapIssue, determineProject, hs, if_true, hg]
  · intro issue tr tr1 jp e hd hl
    simp only [mapIssue, hd, hl]
  · intro pages fuel hs hf
    exact main_ends config env rangeLe fuel _ _ (getAllIssues_of_served env pages fuel hs hf)
  · intro fuel r hrun
    constructor
    · intro tr1 ev hpre hfail
      rcases main_sound config env rangeLe fuel r hrun with hs | ⟨p, hp, hab, hexp⟩
      · rw [answerOk_of_made env r.trace tr1 ev hs hpre] at hfail
        exact absurd hfail (by decide)
      · obtain ⟨t, ev1, e, htr, hst, herr, hpe⟩ := hab
        rw [htr] at hpre
        rcases List.prefix_concat_iff.mp hpre with heq | hlt
        · obtain ⟨h1, h2⟩ := List.append_inj' heq rfl
          simp only [List.cons.injEq, and_true] at h2
          subst h1 h2
          exact ⟨htr, ⟨e, herr, by rw [hp, hpe]⟩, hexp⟩
        · rw [answerOk_of_made env t tr1 ev hst hlt] at hfail
          exact absurd hfail (by decide)
    · intro hw
      obtain ⟨pages, mapped, projectIssues, hserved, -, hmapped, -, -, -, hs⟩ :=
        main_export config env rangeLe fuel r hrun (Or.inr hw)
      exact ⟨hs, pages, mapped, hserved, hmapped⟩

/-- Witness of C12: on `failingPageEnv` the request for page 2 fails and the
run ends there with the error `500`; on the pages `[issueC, issueB]`,
`[issueA]` of `failingEnv` the discussion request for the second issue
processed fails and the run ends there with the error `503` although `A` was
mapped; nothing is written in either run. -/
theorem C12_fail_fast_witness :
    (main exampleConfig failingPageEnv (fun _ _ => true) 2 =
        some { trace := [Event.ListGroupIssues "k-t-corp" 1 10,
                         Event.ListGroupIssues "k-t-corp" 2 10]
               panic := some (.err "500") } ∧
      exportsWritten [Event.ListGroupIssues "k-t-corp" 1 10,
        Event.ListGroupIssues "k-t-corp" 2 10] = []) ∧
    (main exampleConfig (failingEnv [[issueC, issueB], [issueA]]) (fun _ _ => true) 3 =
        some { trace := failedRun.trace, panic := some (.err "503") } ∧
      exportsWritten failedRun.trace = []) ∧
    ((∀ tr1 ev, (tr1 ++ [ev]) <+: failedRun.trace →
      answerOk (failingEnv [[issueC, issueB], [issueA]]) tr1 ev = false →
      failedRun.trace = tr1 ++ [ev] ∧
      (∃ e, answerError (failingEnv [[issueC, issueB], [issueA]]) tr1 ev = some e ∧
        failedRun.panic = some (.err e)) ∧
      exportsWritten failedRun.trace = []) ∧
    (exportsWritten failedRun.trace ≠ [] →
      remoteCallsSucceed (failingEnv [[issueC, issueB], [issueA]]) failedRun.trace = true ∧
      ∃ (pages : List (List Issue)) (mapped : List (String × JiraIssue)),
        PagesServed (failingEnv [[issueC, issueB], [issueA]]) 0 pages ∧
        List.Forall₂ (MappedFrom exampleConfig (failingEnv [[issueC, issueB], [issueA]]))
          pages.flatten.reverse mapped)) :=
  ⟨(C12_fail_fast exampleConfig failingPageEnv (fun _ _ => true)).1
      [[issueC]] "500" 2 ⟨rfl, List.cons_ne_nil _ _, trivial⟩ rfl (by decide),
   (C12_fail_fast exampleConfig (failingEnv [[issueC, issueB], [issueA]])
      (fun _ _ => true)).2.1
      [[issueC, issueB], [issueA]] 3 [issueA] [issueC] issueB
      [("WEB", [exampleJira "Story" "Done" "A" []])]
      [Event.ListGroupIssues "k-t-corp" 1 10, Event.ListGroupIssues "k-t-corp" 2 10,
       Event.ListGroupIssues "k-t-corp" 3 10, Event.Println "Examining \x27A\x27",
       Event.ListIssueDiscussions 7 1]
      failedRun.trace (.err "503")
      ⟨rfl, List.cons_ne_nil _ _, rfl, List.cons_ne_nil _ _, rfl⟩ (by decide) rfl rfl rfl,
   (C12_fail_fast exampleConfig (failingEnv [[issueC, issueB], [issueA]])
      (fun _ _ => true)).2.2.2.2.2 3 failedRun rfl⟩

/-- C13: in a run that ends without panic, the project keys of the export are
pairwise distinct, the issue list of each project is the sub-list, in
processing order, of the mapped issues whose resolved key is the key of the
project, and the issue lists of all projects together have as many elements
as issues were fetched. -/
theorem C13_exporter_grouping (config : Config) (env : Env)
    (rangeLe : String → String → Bool) (fuel : Nat) (r : RunResult)
    (hrun : main config env rangeLe fuel = some r) (hok : r.panic = none) :
    ∃ (pages : List (List Issue)) (mapped : List (String × JiraIssue)) (exportDoc : JiraExport),
      PagesServed env 0 pages ∧
      List.Forall₂ (MappedFrom config env) pages.flatten.reverse mapped ∧
      exportsWritten r.trace = [exportDoc] ∧
      (exportDoc.Projects.map fun p => p.Key).Nodup ∧
      (∀ p ∈ exportDoc.Projects, p.Issues = bucketOf mapped p.Key) ∧
      (exportDoc.Projects.map fun p => p.Issues.length).sum = pages.flatten.length := by
  obtain ⟨pages, mapped, projectIssues, hserved, -, hmapped, hb, htotal, hexp, -⟩ :=
    main_export config env rangeLe fuel r hrun (Or.inl hok)
  refine ⟨pages, mapped, _, hserved, hmapped, hexp,
    projects_keys_nodup rangeLe projectIssues hb.1,
    fun p hp => ((projects_of_buckets rangeLe projectIssues mapped hb).1 p hp).1, ?_⟩
  rw [projects_total, htotal]

/-- Witness of C13: the run on the pages `[issueB, issueE]`, `[issueA]`
exports `WEB` with `A`, `B` and `ENG` with `E`, three issues in all. -/
theorem C13_exporter_grouping_witness :
    exportsWritten exampleRunTwo.trace = [exampleExportTwo] ∧
    ∃ (pages : List (List Issue)) (mapped : List (String × JiraIssue)) (exportDoc : JiraExport),
      PagesServed (pagedEnv [[issueB, issueE], [issueA]]) 0 pages ∧
      List.Forall₂ (MappedFrom exampleConfig (pagedEnv [[issueB, issueE], [issueA]]))
        pages.flatten.reverse mapped ∧
      exportsWritten exampleRunTwo.trace = [exportDoc] ∧
      (exportDoc.Projects.map fun p => p.Key).Nodup ∧
      (∀ p ∈ exportDoc.Projects, p.Issues = bucketOf mapped p.Key) ∧
      (exportDoc.Projects.map fun p => p.Issues.length).sum = pages.flatten.length :=
  ⟨rfl,
   C13_exporter_grouping exampleConfig (pagedEnv [[issueB, issueE], [issueA]])
    (fun _ _ => true) 3 exampleRunTwo rfl rfl⟩
/-- C14, as stated, fails: the labels `legacy` and `eng-project` are both keys
of the label map, the earliest, `legacy`, is mapped to the empty string, and
the issue is resolved to `WEB` through its repository, not to the value of
`legacy`. -/
theorem C14_counterexample :
    exampleConfig.GitlabLabelToJiraProject "legacy" = some "" ∧
    exampleConfig.GitlabLabelToJiraProject "eng-project" = some "ENG" ∧
    firstMappedLabel exampleConfig (exampleIssue 5 ["legacy", "eng-project"] "opened")
      = some "legacy" ∧
    determineProject exampleConfig exampleEnv
      (exampleIssue 5 ["legacy", "eng-project"] "opened") [] =
      (.ok "WEB", [Event.GetProject 7]) ∧
    "WEB" ≠ "" := by
  refine ⟨rfl, rfl, rfl, rfl, by decide⟩

/-- C14, amended: when the earliest label of the issue that is a key of the
label map is mapped to a non-empty value, the resolved project key is that
value; and in every case the labels after the earliest such label have no
influence on the resolution. -/
theorem C14_first_label_wins (config : Config) (env : Env) (issue : Issue) (tr : List Event)
    (before later : List String) (l v : String)
    (hlabels : issue.Labels = before ++ l :: later)
    (hbefore : ∀ x ∈ before, config.GitlabLabelToJiraProject x = none)
    (hv : config.GitlabLabelToJiraProject l = some v) :
    (v ≠ "" → determineProject config env issue tr = (.ok v, tr)) ∧
    ∀ later2 : List String,
      determineProject config env { issue with Labels := before ++ l :: later2 } tr =
        determineProject config env issue tr := by
  have hloop : ∀ rest : List String,
      labelProjectLoop config.GitlabLabelToJiraProject (before ++ l :: rest) "" = v :=
    fun rest => labelProjectLoop_first _ before rest l v "" hbefore hv
  constructor
  · intro hne
    simp only [determineProject, hlabels, hloop, if_neg hne]
  · intro later2
    simp only [determineProject, hlabels, hloop]

/-- Witness of C14, amended: the labels `bug`, `eng-project`, `web-project`;
the earliest mapped label `eng-project` decides. -/
theorem C14_first_label_wins_witness :
    (("ENG" : String) ≠ "" →
      determineProject exampleConfig exampleEnv
        (exampleIssue 5 ["bug", "eng-project", "web-project"] "opened") [] = (.ok "ENG", [])) ∧
    ∀ later2 : List String,
      determineProject exampleConfig exampleEnv
        { exampleIssue 5 ["bug", "eng-project", "web-project"] "opened" with
          Labels := ["bug"] ++ "eng-project" :: later2 } [] =
      determineProject exampleConfig exampleEnv
        (exampleIssue 5 ["bug", "eng-project", "web-project"] "opened") [] :=
  C14_first_label_wins exampleConfig exampleEnv
    (exampleIssue 5 ["bug", "eng-project", "web-project"] "opened") []
    ["bug"] ["web-project"] "eng-project" "ENG" rfl
    (by
      intro x hx
      have h : x = "bug" := by simpa using hx
      subst h
      rfl)
    rfl

/-- C15: with a label map in which `eng-project` is mapped to `ENG` and `bug`
is not a key, and a repository map sending the path of the repository of
issue 2 to `WEB`, issue 1 labelled `bug`, `eng-project` is filed under `ENG`
with type `Epic` without a repository lookup, and issue 2 labelled `bug` is
filed under `WEB` with type `Bug`. -/
theorem C15_scenario (config : Config) (env : Env) (issue1 issue2 : Issue)
    (tr1 tr2 : List Event) (path : String) (d1 d2 : List Discussion)
    (hbug : config.GitlabLabelToJiraProject "bug" = none)
    (heng : config.GitlabLabelToJiraProject "eng-project" = some "ENG")
    (hl1 : issue1.Labels = ["bug", "eng-project"]) (hl2 : issue2.Labels = ["bug"])
    (hpath : env.GetProject
      (tr2 ++ [Event.Println ("Examining \x27" ++ issue2.Title ++ "\x27")]) issue2.ProjectID
        = .ok ⟨path⟩)
    (hweb : config.GitlabRepoToJiraProject path = some "WEB")
    (hd1 : env.ListIssueDiscussions
      (tr1 ++ [Event.Println ("Examining \x27" ++ issue1.Title ++ "\x27")])
        issue1.ProjectID issue1.IID = .ok d1)
    (hd2 : env.ListIssueDiscussions
      (tr2 ++ [Event.Println ("Examining \x27" ++ issue2.Title ++ "\x27")]
        ++ [Event.GetProject issue2.ProjectID]) issue2.ProjectID issue2.IID = .ok d2) :
    ∃ ji1 ji2 : JiraIssue,
      mapIssue config env issue1 tr1 =
        (.ok ("ENG", ji1),
         tr1 ++ [Event.Println ("Examining \x27" ++ issue1.Title ++ "\x27")]
           ++ [Event.ListIssueDiscussions issue1.ProjectID issue1.IID]) ∧
      ji1.IssueType = "Epic" ∧
      mapIssue config env issue2 tr2 =
        (.ok ("WEB", ji2),
         tr2 ++ [Event.Println ("Examining \x27" ++ issue2.Title ++ "\x27")]
           ++ [Event.GetProject issue2.ProjectID]
           ++ [Event.ListIssueDiscussions issue2.ProjectID issue2.IID]) ∧
      ji2.IssueType = "Bug" := by
  have hne1 : ¬ ("ENG" = "") := by decide
  have hne2 : ¬ ("WEB" = "") := by decide
  have hne3 : ¬ ("WEB" = "ENG") := by decide
  have hp1 : ∀ tr, determineProject config env issue1 tr = (.ok "ENG", tr) := by
    intro tr
    simp only [determineProject, hl1, labelProjectLoop, hbug, heng, if_neg hne1]
  have hp2 : determineProject config env issue2
      (tr2 ++ [Event.Println ("Examining \x27" ++ issue2.Title ++ "\x27")]) =
      (.ok "WEB", tr2 ++ [Event.Println ("Examining \x27" ++ issue2.Title ++ "\x27")]
        ++ [Event.GetProject issue2.ProjectID]) := by
    simp only [determineProject, hl2, labelProjectLoop, hbug, if_true, hpath, hweb, if_neg hne2]
  refine ⟨JiraIssue.mk (determineIssueType "ENG" issue1) (determineIssueStatus issue1)
      issue1.Title issue1.Description (determineLabels issue1) (constructComments d1 issue1),
    JiraIssue.mk (determineIssueType "WEB" issue2) (determineIssueStatus issue2)
      issue2.Title issue2.Description (determineLabels issue2) (constructComments d2 issue2),
    ?_, ?_, ?_, ?_⟩
  · simp only [mapIssue, hp1, hd1]
  · simp [determineIssueType]
  · simp only [mapIssue, hp2, hd2]
  · simp [determineIssueType, hl2, bugLoop, hne3]

/-- Witness of C15: issue 1 labelled `bug`, `eng-project` and issue 2 labelled
`bug` in the repository `k-t-corp/web`, which is mapped to `WEB`. -/
theorem C15_scenario_witness :
    ∃ ji1 ji2 : JiraIssue,
      mapIssue exampleConfig exampleEnv (exampleIssue 1 ["bug", "eng-project"] "opened") [] =
        (.ok ("ENG", ji1),
         [] ++ [Event.Println ("Examining \x27" ++
              (exampleIssue 1 ["bug", "eng-project"] "opened").Title ++ "\x27")]
           ++ [Event.ListIssueDiscussions
              (exampleIssue 1 ["bug", "eng-project"] "opened").ProjectID
              (exampleIssue 1 ["bug", "eng-project"] "opened").IID]) ∧
      ji1.IssueType = "Epic" ∧
      mapIssue exampleConfig exampleEnv (exampleIssue 2 ["bug"] "opened") [] =
        (.ok ("WEB", ji2),
         [] ++ [Event.Println ("Examining \x27" ++
              (exampleIssue 2 ["bug"] "opened").Title ++ "\x27")]
           ++ [Event.GetProject (exampleIssue 2 ["bug"] "opened").ProjectID]
           ++ [Event.ListIssueDiscussions (exampleIssue 2 ["bug"] "opened").ProjectID
              (exampleIssue 2 ["bug"] "opened").IID]) ∧
      ji2.IssueType = "Bug" :=
  C15_scenario exampleConfig exampleEnv (exampleIssue 1 ["bug", "eng-project"] "opened")
    (exampleIssue 2 ["bug"] "opened") [] [] "k-t-corp/web"
    [⟨[⟨"first", false⟩, ⟨"closed", true⟩]⟩, ⟨[⟨"second", false⟩]⟩]
    [⟨[⟨"first", false⟩, ⟨"closed", true⟩]⟩, ⟨[⟨"second", false⟩]⟩]
    rfl rfl rfl rfl rfl rfl rfl rfl

/-- C16: the serialized object of a Jira issue lists the fields `issueType`,
`status`, `summary`, `description`, then `labels` when the label list is not
empty, then `comments` when the comment list is not empty, in that order; so
`labels` is present exactly when the derived label list is non-empty and
`comments` exactly when the comment list is non-empty, which it is for every
mapped issue. -/
theorem C16_export_issue_shape :
    (∀ ji : JiraIssue,
      (marshalIssue ji).fieldNames =
        ["issueType", "status", "summary", "description"]
          ++ (if ji.Labels = [] then [] else ["labels"])
          ++ (if ji.Comments = [] then [] else ["comments"]) ∧
      (marshalIssue ji).fieldNames.Sublist
        ["issueType", "status", "summary", "description", "labels", "comments"] ∧
      ("labels" ∈ (marshalIssue ji).fieldNames ↔ ji.Labels ≠ []) ∧
      ("comments" ∈ (marshalIssue ji).fieldNames ↔ ji.Comments ≠ [])) ∧
    ∀ (config : Config) (env : Env) (issue : Issue) (tr tr2 : List Event) (jp : String)
      (ji : JiraIssue), mapIssue config env issue tr = (.ok (jp, ji), tr2) →
      "comments" ∈ (marshalIssue ji).fieldNames ∧
      ("labels" ∈ (marshalIssue ji).fieldNames ↔ projectLabels issue.Labels ≠ []) := by
  have hnames : ∀ ji : JiraIssue,
      (marshalIssue ji).fieldNames =
        ["issueType", "status", "summary", "description"]
          ++ (if ji.Labels = [] then [] else ["labels"])
          ++ (if ji.Comments = [] then [] else ["comments"]) := by
    intro ji
    by_cases hl : ji.Labels = [] <;> by_cases hc : ji.Comments = [] <;>
      simp [marshalIssue, Json.fieldNames, hl, hc]
  have hall : ∀ ji : JiraIssue,
      (marshalIssue ji).fieldNames.Sublist
        ["issueType", "status", "summary", "description", "labels", "comments"] ∧
      ("labels" ∈ (marshalIssue ji).fieldNames ↔ ji.Labels ≠ []) ∧
      ("comments" ∈ (marshalIssue ji).fieldNames ↔ ji.Comments ≠ []) := by
    intro ji
    rw [hnames ji]
    by_cases hl : ji.Labels = [] <;> by_cases hc : ji.Comments = [] <;>
      simp [hl, hc]
  refine ⟨fun ji => ⟨hnames ji, hall ji⟩, ?_⟩
  intro config env issue tr tr2 jp ji h
  obtain ⟨tr1, discussions, -, -, -, hji⟩ := mapIssue_ok h
  have hc : ji.Comments ≠ [] := by
    rw [hji]
    simp [constructComments]
  have hl : ji.Labels = projectLabels issue.Labels := by
    rw [hji]
    simp [determineLabels, extraLabelsLoop_eq]
  refine ⟨(hall ji).2.2.mpr hc, ?_⟩
  rw [← hl]
  exact (hall ji).2.1

/-- Witness of C16: the issue labelled `bug`, `cost`, `topic::infra`, `other`
is serialized with all six fields. -/
theorem C16_export_issue_shape_witness :
    (marshalIssue (JiraIssue.mk "Bug" "Done" "Title" "Text" ["cost", "infra"]
      [⟨"first"⟩, ⟨"second"⟩,
        ⟨"Imported from https://gitlab.example/k-t-corp/web/-/issues/1"⟩])).fieldNames =
      ["issueType", "status", "summary", "description", "labels", "comments"] ∧
    ("comments" ∈ (marshalIssue (JiraIssue.mk "Bug" "Done" "Title" "Text" ["cost", "infra"]
      [⟨"first"⟩, ⟨"second"⟩,
        ⟨"Imported from https://gitlab.example/k-t-corp/web/-/issues/1"⟩])).fieldNames ∧
     ("labels" ∈ (marshalIssue (JiraIssue.mk "Bug" "Done" "Title" "Text" ["cost", "infra"]
      [⟨"first"⟩, ⟨"second"⟩,
        ⟨"Imported from https://gitlab.example/k-t-corp/web/-/issues/1"⟩])).fieldNames ↔
      projectLabels (exampleIssue 3 ["bug", "cost", "topic::infra", "other"] "closed").Labels
        ≠ [])) :=
  ⟨rfl,
   C16_export_issue_shape.2 exampleConfig exampleEnv
    (exampleIssue 3 ["bug", "cost", "topic::infra", "other"] "closed") []
    [Event.Println "Examining \x27Title\x27", Event.GetProject 7,
      Event.ListIssueDiscussions 7 3] "WEB"
    (JiraIssue.mk "Bug" "Done" "Title" "Text" ["cost", "infra"]
      [⟨"first"⟩, ⟨"second"⟩,
        ⟨"Imported from https://gitlab.example/k-t-corp/web/-/issues/1"⟩])
    rfl⟩

/-- C17: when the label scan of an issue yields a project key (a non-empty
value), the iteration for that issue makes no repository lookup, and its
outcome (the mapped issue or the panic, and the events) is the same in any two
worlds that answer the discussion request alike, one in which the lookup fails
included; when the label scan yields nothing, the iteration makes exactly one
lookup, for the project of the issue.  A whole run is the same in two worlds
that differ only in the answers to lookups the run does not make, and a run
that ends without panic has made one lookup per fetched issue whose label scan
yields nothing, in processing order, and no other. -/
theorem C17_repository_lookup_is_fallback (config : Config) (env : Env) (issue : Issue)
    (tr : List Event) :
    (labelScan config issue ≠ "" →
      getProjectCalls (mapIssue config env issue tr).2 = getProjectCalls tr ∧
      ∀ env2 : Env, env2.ListIssueDiscussions = env.ListIssueDiscussions →
        mapIssue config env2 issue tr = mapIssue config env issue tr) ∧
    (labelScan config issue = "" →
      getProjectCalls (mapIssue config env issue tr).2 =
        getProjectCalls tr ++ [issue.ProjectID]) ∧
    (∀ (rangeLe : String → String → Bool) (fuel : Nat) (r : RunResult) (env2 : Env),
      main config env rangeLe fuel = some r → AgreeExceptGetProject env env2 →
      (∀ t pid, (t ++ [Event.GetProject pid]) <+: r.trace →
        env2.GetProject t pid = env.GetProject t pid) →
      main config env2 rangeLe fuel = some r) ∧
    (∀ (rangeLe : String → String → Bool) (fuel : Nat) (r : RunResult),
      main config env rangeLe fuel = some r → r.panic = none →
      ∃ pages : List (List Issue), PagesServed env 0 pages ∧
        getProjectCalls r.trace =
          (pages.flatten.reverse.filter fun i => labelScan config i = "").map
            fun i => i.ProjectID) := by
  refine ⟨?_, ?_, ?_, ?_⟩
  · intro hscan
    refine ⟨?_, ?_⟩
    · rw [getProjectCalls_mapIssue, if_neg hscan, List.append_nil]
    · intro env2 hD
      exact mapIssue_congr config env env2 issue tr hD fun h => absurd h hscan
  · intro hscan
    rw [getProjectCalls_mapIssue, if_pos hscan]
  · intro rangeLe fuel r env2 hrun hagree hG
    exact main_congr config env env2 rangeLe fuel r hrun hagree hG
  · intro rangeLe fuel r hrun hok
    rcases main_cases config env rangeLe fuel r hrun with
      ⟨p, hg, hp⟩ | ⟨issues, tr0, hg, ⟨p, hl, hp⟩ | ⟨projectIssues, tr1, hl, htr, hw⟩⟩
    · rw [hp] at hok; simp at hok
    · rw [hp] at hok; simp at hok
    · obtain ⟨pages, hserved, -, hissues, htr0⟩ := getAllIssues_ok_served env fuel issues tr0 hg
      refine ⟨pages, hserved, ?_⟩
      have h1 := getProjectCalls_issuesLoop config env issues [] projectIssues tr0 tr1 hl
      rw [htr0, getProjectCalls_pageTrace, List.nil_append, hissues] at h1
      rw [htr]
      simp only [getProjectCalls, List.filterMap_append] at h1 ⊢
      rw [h1]
      simp

/-- Witness of C17: `issueE` is resolved by its label `eng-project`, so its
mapping is the same on a server whose repository lookups all fail, and makes
no lookup; `issueB` has no mapped label and its mapping makes one lookup, for
project 7. -/
theorem C17_repository_lookup_is_fallback_witness :
    mapIssue exampleConfig brokenLookupEnv issueE [] =
      mapIssue exampleConfig exampleEnv issueE [] ∧
    getProjectCalls (mapIssue exampleConfig exampleEnv issueE []).2 = getProjectCalls [] ∧
    getProjectCalls (mapIssue exampleConfig exampleEnv issueB []).2 =
      getProjectCalls [] ++ [issueB.ProjectID] :=
  ⟨((C17_repository_lookup_is_fallback exampleConfig exampleEnv issueE []).1
      (by decide)).2 brokenLookupEnv rfl,
   ((C17_repository_lookup_is_fallback exampleConfig exampleEnv issueE []).1 (by decide)).1,
   (C17_repository_lookup_is_fallback exampleConfig exampleEnv issueB []).2.1 rfl⟩

/-- C18: when the server, asked for the pages in increasing order, answers an
empty page at some page number and fails at no earlier one, there is a least
page number `k = k0 + 1` whose page is empty; with fuel for `k` iterations the
fetch loop ends having requested exactly the pages `1`, ..., `k`, once each in
increasing order and with page size 10, with less fuel it has not ended, and
the page requests of a whole run are those `k` requests. -/
theorem C18_pagination_terminates (env : Env) (n : Nat)
    (hempty : pageAnswer env n = .ok [])
    (hok : ∀ i < n, ∃ page, pageAnswer env i = .ok page) :
    ∃ k0, k0 ≤ n ∧ pageAnswer env k0 = .ok [] ∧
      (∀ i < k0, ∃ page, pageAnswer env i = .ok page ∧ page ≠ []) ∧
      (∀ fuel, k0 < fuel → ∃ issues,
        fetchLoop env fuel 1 [] [] =
          some (.ok issues,
            (List.range (k0 + 1)).map fun i => Event.ListGroupIssues "k-t-corp" (i + 1) 10)) ∧
      (∀ fuel, fuel ≤ k0 → fetchLoop env fuel 1 [] [] = none) ∧
      (∀ (config : Config) (rangeLe : String → String → Bool) (fuel : Nat) (r : RunResult),
        main config env rangeLe fuel = some r →
        pageRequests r.trace = (List.range (k0 + 1)).map fun i => ("k-t-corp", i + 1, 10)) := by
  have hempty0 : pageAnswer env (0 + n) = .ok [] := by rw [Nat.zero_add]; exact hempty
  have hok0 : ∀ i < n, ∃ page, pageAnswer env (0 + i) = .ok page := by
    intro i hi
    rw [Nat.zero_add]
    exact hok i hi
  obtain ⟨pages, hserved, hlen⟩ := pagesServed_of_answers env n 0 hempty0 hok0
  obtain ⟨h1, h2⟩ := pagesServed_answers env pages 0 hserved
  rw [Nat.zero_add] at h1
  have h0 : pageTrace 0 = [] := rfl
  refine ⟨pages.length, hlen, h1, ?_, ?_, ?_, ?_⟩
  · intro i hi
    have := h2 i hi
    rw [Nat.zero_add] at this
    exact this
  · intro fuel hfuel
    have h := fetchLoop_of_served env pages 0 [] fuel hserved hfuel
    simp only [h0, Nat.zero_add] at h
    exact ⟨[] ++ pages.flatten, h⟩
  · intro fuel hfuel
    have h := fetchLoop_out_of_fuel env pages 0 [] fuel hserved hfuel
    rw [h0] at h
    exact h
  · intro config rangeLe fuel r hrun
    by_cases hfuel : pages.length < fuel
    · exact pageRequests_main config env rangeLe fuel r pages hserved hfuel hrun
    · exfalso
      have h := fetchLoop_out_of_fuel env pages 0 [] fuel hserved (by omega)
      rw [h0] at h
      simp [main, getAllIssues, h] at hrun

/-- Witness of C18: on the pages `[issueC, issueB]`, `[issueA]` the third page
is the first empty one and the pages 1, 2, 3 are requested. -/
theorem C18_pagination_terminates_witness :
    fetchLoop (pagedEnv [[issueC, issueB], [issueA]]) 3 1 [] [] =
      some (.ok [issueC, issueB, issueA],
        [Event.ListGroupIssues "k-t-corp" 1 10, Event.ListGroupIssues "k-t-corp" 2 10,
         Event.ListGroupIssues "k-t-corp" 3 10]) ∧
    ∃ k0, k0 ≤ 2 ∧ pageAnswer (pagedEnv [[issueC, issueB], [issueA]]) k0 = .ok [] ∧
      (∀ i < k0, ∃ page,
        pageAnswer (pagedEnv [[issueC, issueB], [issueA]]) i = .ok page ∧ page ≠ []) ∧
      (∀ fuel, k0 < fuel → ∃ issues,
        fetchLoop (pagedEnv [[issueC, issueB], [issueA]]) fuel 1 [] [] =
          some (.ok issues,
            (List.range (k0 + 1)).map fun i => Event.ListGroupIssues "k-t-corp" (i + 1) 10)) ∧
      (∀ fuel, fuel ≤ k0 →
        fetchLoop (pagedEnv [[issueC, issueB], [issueA]]) fuel 1 [] [] = none) ∧
      (∀ (config : Config) (rangeLe : String → String → Bool) (fuel : Nat) (r : RunResult),
        main config (pagedEnv [[issueC, issueB], [issueA]]) rangeLe fuel = some r →
        pageRequests r.trace = (List.range (k0 + 1)).map fun i => ("k-t-corp", i + 1, 10)) :=
  ⟨rfl,
   C18_pagination_terminates (pagedEnv [[issueC, issueB], [issueA]]) 2 rfl
    (fun i _ => ⟨[[issueC, issueB], [issueA]].getD (i + 1 - 1) [], rfl⟩)⟩

/-- C19: in a run that ends without panic, every project of the export has at
least one issue, and its key is the resolved key of a mapped issue; so a key
to which no fetched issue was resolved, whether or not it occurs in the
configuration, is the key of no project of the export. -/
theorem C19_no_empty_bucket (config : Config) (env : Env)
    (rangeLe : String → String → Bool) (fuel : Nat) (r : RunResult)
    (hrun : main config env rangeLe fuel = some r) (hok : r.panic = none) :
    ∃ (pages : List (List Issue)) (mapped : List (String × JiraIssue)) (exportDoc : JiraExport),
      PagesServed env 0 pages ∧
      List.Forall₂ (MappedFrom config env) pages.flatten.reverse mapped ∧
      exportsWritten r.trace = [exportDoc] ∧
      (∀ p ∈ exportDoc.Projects, p.Issues ≠ [] ∧ ∃ ji, (p.Key, ji) ∈ mapped) ∧
      (∀ key : String, (∀ m ∈ mapped, m.1 ≠ key) →
        ∀ p ∈ exportDoc.Projects, p.Key ≠ key) := by
  obtain ⟨pages, mapped, projectIssues, hserved, -, hmapped, hb, -, hexp, -⟩ :=
    main_export config env rangeLe fuel r hrun (Or.inl hok)
  have h1 := (projects_of_buckets rangeLe projectIssues mapped hb).1
  have hkey : ∀ p ∈ projectsLoop (rangeOrder rangeLe projectIssues) [],
      p.Issues ≠ [] ∧ ∃ ji, (p.Key, ji) ∈ mapped := by
    intro p hp
    exact ⟨(h1 p hp).2, bucketOf_ne_nil mapped p.Key ((h1 p hp).1 ▸ (h1 p hp).2)⟩
  refine ⟨pages, mapped, _, hserved, hmapped, hexp, hkey, ?_⟩
  intro key hnone p hp hpk
  obtain ⟨ji, hji⟩ := (hkey p hp).2
  exact hnone (p.Key, ji) hji hpk

/-- Witness of C19: in the run on the pages `[issueC, issueB]`, `[issueA]` all
issues are resolved to `WEB`; the export has the one project `WEB`, and the
key `ENG` of the configuration does not occur. -/
theorem C19_no_empty_bucket_witness :
    exampleConfig.GitlabLabelToJiraProject "eng-project" = some "ENG" ∧
    (exportsWritten exampleRun.trace).map (fun e => e.Projects.map fun p => p.Key)
      = [["WEB"]] ∧
    ∃ (pages : List (List Issue)) (mapped : List (String × JiraIssue)) (exportDoc : JiraExport),
      PagesServed (pagedEnv [[issueC, issueB], [issueA]]) 0 pages ∧
      List.Forall₂ (MappedFrom exampleConfig (pagedEnv [[issueC, issueB], [issueA]]))
        pages.flatten.reverse mapped ∧
      exportsWritten exampleRun.trace = [exportDoc] ∧
      (∀ p ∈ exportDoc.Projects, p.Issues ≠ [] ∧ ∃ ji, (p.Key, ji) ∈ mapped) ∧
      (∀ key : String, (∀ m ∈ mapped, m.1 ≠ key) →
        ∀ p ∈ exportDoc.Projects, p.Key ≠ key) :=
  ⟨rfl, rfl,
   C19_no_empty_bucket exampleConfig (pagedEnv [[issueC, issueB], [issueA]])
    (fun _ _ => true) 3 exampleRun rfl rfl⟩

/-- C20: when the first page of issues is empty, then for every configuration
the run ends having made the one page request and no repository or discussion
request, and having handed to the writer of `export.json` the export whose
project list is empty; it ends without panic exactly when that write
succeeds. -/
theorem C20_empty_group (config : Config) (env : Env) (rangeLe : String → String → Bool)
    (fuel : Nat) (hfirst : pageAnswer env 0 = .ok []) (hfuel : 0 < fuel) :
    ∃ r, main config env rangeLe fuel = some r ∧
      r.trace = [Event.ListGroupIssues "k-t-corp" 1 10,
        Event.WriteFile "export.json" { Projects := [] }] ∧
      getProjectCalls r.trace = [] ∧ discussionCalls r.trace = [] ∧
      exportsWritten r.trace = [{ Projects := [] }] ∧
      (env.WriteFile [Event.ListGroupIssues "k-t-corp" 1 10] "export.json" { Projects := [] }
        = .ok () → r.panic = none) ∧
      (r.panic = none →
        env.WriteFile [Event.ListGroupIssues "k-t-corp" 1 10] "export.json" { Projects := [] }
          = .ok ()) := by
  have ha : env.ListGroupIssues [] "k-t-corp" 1 10 = .ok [] := hfirst
  cases fuel with
  | zero => omega
  | succ fuel =>
    cases hw : env.WriteFile [Event.ListGroupIssues "k-t-corp" 1 10] "export.json"
        { Projects := [] } with
    | error e =>
      refine ⟨⟨_, some (.err e)⟩, ?_, rfl, rfl, rfl, rfl, ?_, ?_⟩
      · simp [main, getAllIssues, fetchLoop, ha, reverseIssues, reverseLoop, issuesLoop,
          rangeOrder, projectsLoop, hw]
      · intro h; simp at h
      · intro h; simp at h
    | ok u =>
      refine ⟨⟨_, none⟩, ?_, rfl, rfl, rfl, rfl, fun _ => rfl, fun _ => rfl⟩
      simp [main, getAllIssues, fetchLoop, ha, reverseIssues, reverseLoop, issuesLoop,
        rangeOrder, projectsLoop, hw]

/-- Witness of C20: a server with no issue and a configuration with empty
mapping tables. -/
theorem C20_empty_group_witness :
    main { GitlabToken := "", GitlabLabelToJiraProject := fun _ => none,
           GitlabRepoToJiraProject := fun _ => none } (pagedEnv []) (fun _ _ => true) 1 =
      some { trace := [Event.ListGroupIssues "k-t-corp" 1 10,
                       Event.WriteFile "export.json" { Projects := [] }]
             panic := none } ∧
    ∃ r, main { GitlabToken := "", GitlabLabelToJiraProject := fun _ => none,
                GitlabRepoToJiraProject := fun _ => none } (pagedEnv []) (fun _ _ => true) 1
        = some r ∧
      r.trace = [Event.ListGroupIssues "k-t-corp" 1 10,
        Event.WriteFile "export.json" { Projects := [] }] ∧
      getProjectCalls r.trace = [] ∧ discussionCalls r.trace = [] ∧
      exportsWritten r.trace = [{ Projects := [] }] ∧
      ((pagedEnv []).WriteFile [Event.ListGroupIssues "k-t-corp" 1 10] "export.json"
        { Projects := [] } = .ok () → r.panic = none) ∧
      (r.panic = none →
        (pagedEnv []).WriteFile [Event.ListGroupIssues "k-t-corp" 1 10] "export.json"
          { Projects := [] } = .ok ()) :=
  ⟨rfl,
   C20_empty_group { GitlabToken := "", GitlabLabelToJiraProject := fun _ => none,
                     GitlabRepoToJiraProject := fun _ => none } (pagedEnv [])
    (fun _ _ => true) 1 rfl (by decide)⟩

end GitlabToJira
